import Mathlib

/-!
# Verification of the flutter-analyze-commenter core (`index.js`)

This file gives a shallow embedding of the computational core of
`index.js` — the analyzer-log parser, the custom-lint JSON parser, the
unified-diff index (`Diff` / `DiffFile`), the comment synthesis
(`Comment`, `groupIssuesByLine`, `filterIssuesByDiff`), the reconciler
(`commentsToAdd` / `commentsToDelete` via
`RemoteComment.matchesLocalComment`) and the effectful pipeline of
`module.exports` (modelled as a trace of requests issued to the GitHub
API) — and proves the specification claims about them.

JavaScript strings are modelled as Lean `String`s (operated on through
their `List Char` data), JS numbers appearing as line counters are
modelled as `Int` (the diff line counter can become `-1`), and the JS
object used as a string-keyed dictionary is modelled as an association
list in insertion order.
-/

namespace FlutterAnalyze

/-! ## JS string primitives used by `index.js` -/

/-- `pat.isPrefixOf s` on raw character lists (used to embed
`String.prototype.startsWith`). -/
def isPrefixOfL : List Char → List Char → Bool
  | [], _ => true
  | _ :: _, [] => false
  | p :: ps, c :: cs => p == c && isPrefixOfL ps cs

/-- Embeds `line.startsWith(pre)`. -/
def jsStartsWith (s pre : String) : Bool :=
  isPrefixOfL pre.data s.data

/-- First-occurrence replacement on character lists: the semantics of
`s.replace(pat, rep)` when `pat` is a plain string (JS replaces only the
first occurrence).  An empty pattern matches at position 0. -/
def replaceFirstL (pat rep : List Char) : List Char → List Char
  | [] => if isPrefixOfL pat [] then rep else []
  | c :: cs =>
    if isPrefixOfL pat (c :: cs) then rep ++ (c :: cs).drop pat.length
    else c :: replaceFirstL pat rep cs

/-- Embeds `s.replace(pat, rep)` with a string pattern. -/
def jsReplaceFirst (s pat rep : String) : String :=
  ⟨replaceFirstL pat.data rep.data s.data⟩

/-- `sub` occurs somewhere inside `s`: the semantics of
`s.includes(sub)`. -/
def containsL (sub : List Char) : List Char → Bool
  | [] => isPrefixOfL sub []
  | c :: cs => isPrefixOfL sub (c :: cs) || containsL sub cs

/-- Embeds `s.includes(sub)`. -/
def jsIncludes (s sub : String) : Bool :=
  containsL sub.data s.data

/-- Split a character list at every newline: the semantics of
`s.split('\n')` (always returns at least one piece). -/
def splitNlL : List Char → List (List Char)
  | [] => [[]]
  | c :: cs =>
    if c = '\n' then [] :: splitNlL cs
    else match splitNlL cs with
      | [] => [[c]]
      | piece :: rest => (c :: piece) :: rest

/-- Embeds `data.split('\n')`. -/
def jsSplitNl (s : String) : List String :=
  (splitNlL s.data).map String.mk

/-- Join lines with `'\n'` (used to build concrete diff texts). -/
def joinNl : List String → String
  | [] => ""
  | [l] => l
  | l :: ls => l ++ "\n" ++ joinNl ls

/-- ASCII decimal digit test (the `\d` character class). -/
def isDigitC (c : Char) : Bool :=
  '0' ≤ c && c ≤ '9'

/-- Numeric value of the decimal digits in `ds`: the semantics of
`parseInt(ds, 10)` on a string of digits. -/
def parseNatL (ds : List Char) : Nat :=
  ds.foldl (fun n c => n * 10 + (c.toNat - '0'.toNat)) 0

/-- Greedy `\d+`: split off the longest nonempty digit prefix. -/
def digits1 : List Char → Option (List Char × List Char)
  | [] => none
  | c :: cs =>
    if isDigitC c then
      match digits1 cs with
      | some (ds, rest) => some (c :: ds, rest)
      | none => some ([c], cs)
    else none

/-- The head of the list, if any, is not a digit (the boundary condition
for a greedy digit run). -/
def headNotDigit : List Char → Prop
  | [] => True
  | c :: _ => isDigitC c = false

/-- Strip an exact literal prefix, or fail. -/
def dropPrefixQ : List Char → List Char → Option (List Char)
  | [], s => some s
  | _ :: _, [] => none
  | p :: ps, c :: cs => if p == c then dropPrefixQ ps cs else none

/-- The `,?\d*` part of the hunk-header regex: optionally consume a
comma, then greedily consume digits. -/
def skipOptCommaDigits (s : List Char) : List Char :=
  match s with
  | ',' :: rest => rest.dropWhile isDigitC
  | _ => s.dropWhile isDigitC

/-! ## The data model (`Issue`, `Comment`, `RemoteComment`) -/

/-- `class Issue` — one analyzer finding.  Line/column are `Int` so the
type matches the diff line counter. -/
structure Issue where
  level : String
  message : String
  file : String
  line : Int
  column : Int
deriving Repr, DecidableEq

/-- The severity-icon lookup table of `Comment` /
`generateTableForIssuesNotInDiff`; a key outside the table yields the
string a JS template literal would render for `undefined`. -/
def levelIcon (level : String) : String :=
  if level = "info" then "ℹ️"
  else if level = "warning" then "⚠️"
  else if level = "error" then "❌"
  else "undefined"

/-- `class Comment` — a desired inline comment synthesized from a group
of issues ( `new Comment(group)` reads `issues[0]`; groups produced by
`groupIssuesByLine` are never empty, the `[]` branch is inert). -/
structure Comment where
  path : String
  line : Int
  body : String
deriving Repr, DecidableEq

/-- The body of `new Comment(issues)`: a table with one row per issue,
then the inline-comment marker. -/
def commentBody (issues : List Issue) : String :=
  "<table><thead><tr><th>Level</th><th>Message</th></tr></thead><tbody>" ++
    String.join (issues.map fun issue =>
      "<tr><td>" ++ levelIcon issue.level ++ "</td><td>" ++ issue.message ++ "</td></tr>") ++
    "</tbody></table><!-- Flutter Analyze Commenter: issue -->"

/-- `new Comment(issues)`. -/
def Comment.ofIssues (issues : List Issue) : Comment where
  path := match issues with | i :: _ => i.file | [] => ""
  line := match issues with | i :: _ => i.line | [] => 0
  body := commentBody issues

/-- `class RemoteComment` — an existing review comment; its coordinate
may be absent (`null` from the API), hence `Option Int`. -/
structure RemoteComment where
  id : Nat
  path : String
  line : Option Int
  body : String
deriving Repr, DecidableEq

/-- `RemoteComment.matchesLocalComment` — structural equality on
(path, coordinate, body); `===` between `null` and a number is false. -/
def RemoteComment.matchesLocalComment (remote : RemoteComment) (local_ : Comment) : Bool :=
  remote.path == local_.path && remote.line == some local_.line && remote.body == local_.body

/-! ## The Reconciler (index.js lines 192–197) -/

/-- `commentsToAdd`: desired comments no remote comment matches. -/
def commentsToAdd (inlineComments : List Comment) (remoteComments : List RemoteComment) :
    List Comment :=
  inlineComments.filter fun local_ =>
    !(remoteComments.any fun remote => remote.matchesLocalComment local_)

/-- `commentsToDelete`: remote comments no desired comment matches. -/
def commentsToDelete (inlineComments : List Comment) (remoteComments : List RemoteComment) :
    List RemoteComment :=
  remoteComments.filter fun remote =>
    !(inlineComments.any fun local_ => remote.matchesLocalComment local_)

/-! ## The diff index (`class DiffFile`, `class Diff`) -/

/-- The hunk-header regex `/^@@ -\d+,?\d* \+(\d+),?\d* @@/` of
`Diff.parse`: anchored at the start, arbitrary trailing text, returns
the captured new-revision start `c`.  The digit runs are greedy and each
is followed by a non-digit in the pattern, so a deterministic
max-munch parse is exactly the regex's behaviour. -/
def parseHunkHeader (line : String) : Option Nat :=
  match dropPrefixQ "@@ -".data line.data with
  | none => none
  | some r0 =>
    match digits1 r0 with
    | none => none
    | some (_, r1) =>
      let r2 := skipOptCommaDigits r1
      match dropPrefixQ " +".data r2 with
      | none => none
      | some r3 =>
        match digits1 r3 with
        | none => none
        | some (c, r4) =>
          let r5 := skipOptCommaDigits r4
          match dropPrefixQ " @@".data r5 with
          | none => none
          | some _ => some (parseNatL c)

/-- One `DiffFile` entry: `fileName` with its recorded `changes`. -/
structure DiffFile where
  fileName : String
  changes : List Int
deriving Repr, DecidableEq

/-- `Diff.addFileChange`: append `line` to the entry for `fileName`,
creating the entry if absent (JS object insertion order). -/
def addFileChange : List DiffFile → String → Int → List DiffFile
  | [], name, line => [⟨name, [line]⟩]
  | f :: rest, name, line =>
    if f.fileName = name then ⟨f.fileName, f.changes ++ [line]⟩ :: rest
    else f :: addFileChange rest name line

/-- The running state of `Diff.parse`. -/
structure DiffState where
  files : List DiffFile
  currentFile : String
  lineCounter : Int
deriving Repr, DecidableEq

/-- One iteration of the `for (const line of diffLines)` loop of
`Diff.parse`. -/
def parseStep (st : DiffState) (line : String) : DiffState :=
  if jsStartsWith line "+++ b/" then
    { st with currentFile := jsReplaceFirst line "+++ b/" "", lineCounter := 0 }
  else
    match parseHunkHeader line with
    | some c => { st with lineCounter := (c : Int) - 1 }
    | none =>
      if jsStartsWith line "+" then
        { st with lineCounter := st.lineCounter + 1,
                  files := addFileChange st.files st.currentFile (st.lineCounter + 1) }
      else if jsStartsWith line "-" then st
      else { st with lineCounter := st.lineCounter + 1 }

/-- The whole `Diff` state after scanning a list of diff lines. -/
def parseLines (lines : List String) : DiffState :=
  lines.foldl parseStep ⟨[], "", 0⟩

/-- `new Diff(data)`: split on newlines and scan. -/
def Diff.parse (data : String) : DiffState :=
  parseLines (jsSplitNl data)

/-- `DiffFile.hasChange` on a file list: `this.files[fileName] &&
this.files[fileName].hasChange(line)` (a missing entry is falsy). -/
def filesHasChange (files : List DiffFile) (fileName : String) (line : Int) : Bool :=
  match files.find? (fun f => f.fileName = fileName) with
  | some f => f.changes.contains line
  | none => false

/-- `Diff.fileHasChange`. -/
def fileHasChange (d : DiffState) (fileName : String) (line : Int) : Bool :=
  filesHasChange d.files fileName line

/-! ## A structural model of unified diffs

The specification speaks about hunks of a well-formed unified diff.  The
following structures describe such a diff; `renderDiff` prints it in the
wire format `Diff.parse` consumes, and `hunkAddedLines` is the
specification's own per-hunk walk ("set the counter to `c - 1`; an added
line increments the counter and is recorded; a removed line does not
touch the counter; any other line increments it"). -/

inductive HunkLine where
  | add (s : String)
  | rem (s : String)
  | ctx (s : String)
deriving Repr, DecidableEq

/-- One hunk `@@ -a,b +c,d @@` with its body lines. -/
structure Hunk where
  oldStart : Nat
  oldLen : Nat
  newStart : Nat
  newLen : Nat
  body : List HunkLine
deriving Repr, DecidableEq

/-- One per-file section of the diff. -/
structure FileDiff where
  name : String
  hunks : List Hunk
deriving Repr, DecidableEq

/-- The character for one decimal digit. -/
def digitChar : Nat → Char
  | 0 => '0' | 1 => '1' | 2 => '2' | 3 => '3' | 4 => '4'
  | 5 => '5' | 6 => '6' | 7 => '7' | 8 => '8' | 9 => '9'
  | _ => '*'

/-- Decimal rendering of a `Nat` (most significant digit first). -/
def natDigits (n : Nat) : List Char :=
  if _h : n < 10 then [digitChar n]
  else natDigits (n / 10) ++ [digitChar (n % 10)]
decreasing_by exact Nat.div_lt_self (by omega) (by omega)

/-- Render one hunk body line with its diff prefix. -/
def renderHunkLine : HunkLine → String
  | .add s => ⟨'+' :: s.data⟩
  | .rem s => ⟨'-' :: s.data⟩
  | .ctx s => ⟨' ' :: s.data⟩

/-- Render the `@@ -a,b +c,d @@` header of a hunk. -/
def renderHunkHeader (h : Hunk) : String :=
  ⟨"@@ -".data ++ natDigits h.oldStart ++ [','] ++ natDigits h.oldLen ++
    " +".data ++ natDigits h.newStart ++ [','] ++ natDigits h.newLen ++ " @@".data⟩

/-- Render one hunk: header line then body lines. -/
def renderHunk (h : Hunk) : List String :=
  renderHunkHeader h :: h.body.map renderHunkLine

/-- Render one file section: `+++ b/<name>` then its hunks. -/
def renderFile (fd : FileDiff) : List String :=
  ("+++ b/" ++ fd.name) :: (fd.hunks.map renderHunk).flatten

/-- Render a whole diff as its list of lines. -/
def renderDiff (fs : List FileDiff) : List String :=
  (fs.map renderFile).flatten

/-- The specification's per-hunk counter walk, starting from counter
`k`: the new-revision line numbers of the added lines. -/
def hunkWalk (k : Int) : List HunkLine → List Int
  | [] => []
  | .add _ :: rest => (k + 1) :: hunkWalk (k + 1) rest
  | .rem _ :: rest => hunkWalk k rest
  | .ctx _ :: rest => hunkWalk (k + 1) rest

/-- New-revision line numbers of the added lines of hunk `h`
(specification side). -/
def hunkAddedLines (h : Hunk) : List Int :=
  hunkWalk ((h.newStart : Int) - 1) h.body

/-- Specification-side touched-line predicate: some hunk for file `f`
contains an added line mapping to new-revision line `l`. -/
def specTouched (fs : List FileDiff) (f : String) (l : Int) : Prop :=
  ∃ fd ∈ fs, fd.name = f ∧ ∃ h ∈ fd.hunks, l ∈ hunkAddedLines h

instance (fs : List FileDiff) (f : String) (l : Int) : Decidable (specTouched fs f l) := by
  unfold specTouched; infer_instance

/-- The raw text of a hunk body line. -/
def HunkLine.content : HunkLine → String
  | .add s => s
  | .rem s => s
  | .ctx s => s

/-- An added line must not render as a `+++ b/` file header (its content
must not start with `++ b/`); removed and context lines can never
collide with any marker. -/
def lineSafe : HunkLine → Prop
  | .add s => jsStartsWith (renderHunkLine (.add s)) "+++ b/" = false
  | .rem _ => True
  | .ctx _ => True

instance : DecidablePred lineSafe := fun l =>
  match l with
  | .add _ => inferInstanceAs (Decidable (_ = false))
  | .rem _ => inferInstanceAs (Decidable True)
  | .ctx _ => inferInstanceAs (Decidable True)

/-- Well-formedness of a structural diff: no embedded newline in file
names or line contents (each rendered line is one line of the text), and
every body line is `lineSafe`. -/
def wfDiff (fs : List FileDiff) : Prop :=
  ∀ fd ∈ fs, '\n' ∉ fd.name.data ∧
    ∀ h ∈ fd.hunks, ∀ l ∈ h.body, '\n' ∉ l.content.data ∧ lineSafe l

instance (fs : List FileDiff) : Decidable (wfDiff fs) := by
  unfold wfDiff; infer_instance

/-- Count of context lines (the lines that advance the counter without
being recorded). -/
def ctxCount : List HunkLine → Int
  | [] => 0
  | .ctx _ :: rest => 1 + ctxCount rest
  | _ :: rest => ctxCount rest

/-- The well-formedness condition the scan needs: no added line of any
hunk renders as a `+++ b/` file header. -/
def addLinesSafe (fs : List FileDiff) : Prop :=
  ∀ fd ∈ fs, ∀ h ∈ fd.hunks, ∀ s : String, HunkLine.add s ∈ h.body →
    jsStartsWith (renderHunkLine (.add s)) "+++ b/" = false

/-- Count of hunk body lines that advance the new-revision counter
(added and context lines; removed lines do not). -/
def nonRemCount : List HunkLine → Int
  | [] => 0
  | .rem _ :: rest => nonRemCount rest
  | _ :: rest => 1 + nonRemCount rest

/-- Record a list of touched line numbers for one file. -/
def addHunkLines (name : String) (ks : List Int) (files : List DiffFile) : List DiffFile :=
  ks.foldl (fun a k => addFileChange a name k) files

/-- Record all added lines of a list of hunks for one file. -/
def addHunks (name : String) (hunks : List Hunk) (files : List DiffFile) : List DiffFile :=
  hunks.foldl (fun acc h => addHunkLines name (hunkAddedLines h) acc) files

/-- Record all added lines of a list of file sections. -/
def addFiles (fs : List FileDiff) (files : List DiffFile) : List DiffFile :=
  fs.foldl (fun acc fd => addHunks fd.name fd.hunks acc) files

/-! ## The analyzer-log parser (`parseAnalyzerOutputs`)

The regex `/\[(info|warning|error)\] (.+) \((.+):(\d+):(\d+)\)/g` is
embedded as an explicit backtracking matcher: the scan tries each start
position from the left; the alternation is tried in source order; the
two `(.+)` groups are greedy (longest first, retrying shorter on
failure); each `(\d+)` is greedy and followed by a non-digit literal, so
max-munch needs no retry; `.` does not match a newline. -/

/-- The path normalization applied to every matched file path (and by
the custom-lint parser): strip the first occurrence of the working
directory, strip one leading path separator (`/^(\\|\/)/`), and replace
the **first** backslash by a forward slash (`/\\/` without the `g`
flag). -/
def stripLeadingSep (s : String) : String :=
  match s.data with
  | c :: rest => if c = '\\' ∨ c = '/' then ⟨rest⟩ else s
  | [] => s

/-- `p.replace(workingDir, '').replace(/^(\\|\/)/, '').replace(/\\/, '/')`. -/
def normalizeFile (workingDir p : String) : String :=
  jsReplaceFirst (stripLeadingSep (jsReplaceFirst p workingDir "")) "\\" "/"

/-- `:(\d+):(\d+)\)` — the coordinate tail of the analyzer regex. -/
def parseCoords (s : List Char) : Option (Nat × Nat × List Char) :=
  match s with
  | ':' :: r =>
    match digits1 r with
    | some (d1, r1) =>
      (match r1 with
       | ':' :: r2 =>
         match digits1 r2 with
         | some (d2, r3) =>
           (match r3 with
            | ')' :: r4 => some (parseNatL d1, parseNatL d2, r4)
            | _ => none)
         | none => none
       | _ => none)
    | none => none
  | _ => none

/-- Greedy search for the `(.+)` file group: try the longest candidate
first, then retry shorter ones. -/
def searchF (t : List Char) : Nat → Option (List Char × Nat × Nat × List Char)
  | 0 => none
  | k + 1 =>
    let f := t.take (k + 1)
    if f.all (· != '\n') then
      match parseCoords (t.drop (k + 1)) with
      | some (d1, d2, r) => some (f, d1, d2, r)
      | none => searchF t k
    else searchF t k

/-- ` \(` then the file group and coordinates. -/
def parseParen (s : List Char) : Option (List Char × Nat × Nat × List Char) :=
  match s with
  | ' ' :: '(' :: t => searchF t t.length
  | _ => none

/-- Greedy search for the `(.+)` message group. -/
def searchM (t : List Char) :
    Nat → Option (List Char × List Char × Nat × Nat × List Char)
  | 0 => none
  | k + 1 =>
    let m := t.take (k + 1)
    if m.all (· != '\n') then
      match parseParen (t.drop (k + 1)) with
      | some (f, d1, d2, r) => some (m, f, d1, d2, r)
      | none => searchM t k
    else searchM t k

/-- The `(info|warning|error)\] ` alternation after the opening `[`. -/
def matchLevelTail (rest : List Char) : Option (String × List Char) :=
  match dropPrefixQ "info] ".data rest with
  | some r => some ("info", r)
  | none =>
    match dropPrefixQ "warning] ".data rest with
    | some r => some ("warning", r)
    | none =>
      match dropPrefixQ "error] ".data rest with
      | some r => some ("error", r)
      | none => none

/-- Try the whole analyzer pattern at the current position.  Returns
(level, message, file, line, column, rest-after-match). -/
def matchAt (cs : List Char) :
    Option (String × List Char × List Char × Nat × Nat × List Char) :=
  match cs with
  | '[' :: rest =>
    match matchLevelTail rest with
    | some (lv, t) =>
      (match searchM t t.length with
       | some (m, f, d1, d2, r) => some (lv, m, f, d1, d2, r)
       | none => none)
    | none => none
  | _ => none

/-- The `regex.exec` loop: scan forward, emit an `Issue` for every
match, resume after each match (`lastIndex`).  Fuel bounds the scan; a
match always consumes at least one character, so `length + 1` fuel is
enough. -/
def execLoop (workingDir : String) : Nat → List Char → List Issue
  | 0, _ => []
  | _ + 1, [] => []
  | fuel + 1, c :: cs =>
    match matchAt (c :: cs) with
    | some (lv, m, f, d1, d2, r) =>
      ⟨lv, ⟨m⟩, normalizeFile workingDir ⟨f⟩, (d1 : Int), (d2 : Int)⟩ ::
        execLoop workingDir fuel r
    | none => execLoop workingDir fuel cs

/-- `parseAnalyzerOutputs(analyzeLog, workingDir)`. -/
def parseAnalyzerOutputs (analyzeLog workingDir : String) : List Issue :=
  execLoop workingDir (analyzeLog.data.length + 1) analyzeLog.data

/-! ## JSON and the custom-lint parser (`CustomLintParser`)

`JSON.parse` is an external platform primitive; it is embedded as a
recursive-descent parser for the JSON fragment the custom-lint payload
uses.  Numbers are modelled as integers (the payload carries integer
line/column values), strings support the standard single-character
escapes and `\uXXXX` (surrogate pairs are not recombined). -/

inductive Json where
  | null
  | bool (b : Bool)
  | num (n : Int)
  | str (s : String)
  | arr (elems : List Json)
  | obj (fields : List (String × Json))

/-- JSON insignificant whitespace. -/
def skipWs : List Char → List Char
  | [] => []
  | c :: cs =>
    if c = ' ' ∨ c = '\t' ∨ c = '\n' ∨ c = '\r' then skipWs cs else c :: cs

/-- Single-character JSON string escapes. -/
def escChar (e : Char) : Option Char :=
  if e = '"' then some '"'
  else if e = '\\' then some '\\'
  else if e = '/' then some '/'
  else if e = 'b' then some (Char.ofNat 8)
  else if e = 'f' then some (Char.ofNat 12)
  else if e = 'n' then some '\n'
  else if e = 'r' then some '\r'
  else if e = 't' then some '\t'
  else none

/-- Hex digit value. -/
def hexVal (c : Char) : Option Nat :=
  if isDigitC c then some (c.toNat - '0'.toNat)
  else if 'a' ≤ c ∧ c ≤ 'f' then some (c.toNat - 'a'.toNat + 10)
  else if 'A' ≤ c ∧ c ≤ 'F' then some (c.toNat - 'A'.toNat + 10)
  else none

/-- JSON string body after the opening quote; returns the decoded
characters and the rest after the closing quote. -/
def parseJStr : List Char → Option (List Char × List Char)
  | [] => none
  | '"' :: r => some ([], r)
  | '\\' :: rest =>
    (match rest with
     | [] => none
     | 'u' :: a :: b :: c :: d :: r =>
       (match hexVal a, hexVal b, hexVal c, hexVal d with
        | some va, some vb, some vc, some vd =>
          (match parseJStr r with
           | some (s, r') =>
             some (Char.ofNat (((va * 16 + vb) * 16 + vc) * 16 + vd) :: s, r')
           | none => none)
        | _, _, _, _ => none)
     | e :: r =>
       (match escChar e with
        | some c =>
          (match parseJStr r with
           | some (s, r') => some (c :: s, r')
           | none => none)
        | none => none))
  | c :: r =>
    match parseJStr r with
    | some (s, r') => some (c :: s, r')
    | none => none

mutual

/-- One JSON value (leading whitespace allowed). -/
def parseJValue : Nat → List Char → Option (Json × List Char)
  | 0, _ => none
  | fuel + 1, cs =>
    match skipWs cs with
    | '{' :: r => parseJObj fuel (skipWs r)
    | '[' :: r => parseJArr fuel (skipWs r)
    | '"' :: r =>
      (match parseJStr r with
       | some (s, r') => some (.str ⟨s⟩, r')
       | none => none)
    | 't' :: r =>
      (match dropPrefixQ "rue".data r with
       | some r' => some (.bool true, r')
       | none => none)
    | 'f' :: r =>
      (match dropPrefixQ "alse".data r with
       | some r' => some (.bool false, r')
       | none => none)
    | 'n' :: r =>
      (match dropPrefixQ "ull".data r with
       | some r' => some (.null, r')
       | none => none)
    | '-' :: r =>
      (match digits1 r with
       | some (ds, r') => some (.num (-(parseNatL ds : Int)), r')
       | none => none)
    | c :: r =>
      if isDigitC c then
        match digits1 (c :: r) with
        | some (ds, r') => some (.num (parseNatL ds), r')
        | none => none
      else none
    | [] => none

/-- Object continuation, positioned after `{` and whitespace. -/
def parseJObj : Nat → List Char → Option (Json × List Char)
  | 0, _ => none
  | fuel + 1, cs =>
    match cs with
    | '}' :: r => some (.obj [], r)
    | _ =>
      match parseJMembers fuel cs with
      | some (fields, r) => some (.obj fields, r)
      | none => none

/-- One or more `"key": value` members, consuming the closing `}`. -/
def parseJMembers : Nat → List Char → Option (List (String × Json) × List Char)
  | 0, _ => none
  | fuel + 1, cs =>
    match skipWs cs with
    | '"' :: r =>
      (match parseJStr r with
       | some (key, r1) =>
         (match skipWs r1 with
          | ':' :: r2 =>
            (match parseJValue fuel r2 with
             | some (v, r3) =>
               (match skipWs r3 with
                | ',' :: r4 =>
                  (match parseJMembers fuel r4 with
                   | some (fields, r5) => some ((⟨key⟩, v) :: fields, r5)
                   | none => none)
                | '}' :: r4 => some ([(⟨key⟩, v)], r4)
                | _ => none)
             | none => none)
          | _ => none)
       | none => none)
    | _ => none

/-- Array continuation, positioned after `[` and whitespace. -/
def parseJArr : Nat → List Char → Option (Json × List Char)
  | 0, _ => none
  | fuel + 1, cs =>
    match cs with
    | ']' :: r => some (.arr [], r)
    | _ =>
      match parseJElems fuel cs with
      | some (elems, r) => some (.arr elems, r)
      | none => none

/-- One or more array elements, consuming the closing `]`. -/
def parseJElems : Nat → List Char → Option (List Json × List Char)
  | 0, _ => none
  | fuel + 1, cs =>
    match parseJValue fuel cs with
    | some (v, r) =>
      (match skipWs r with
       | ',' :: r1 =>
         (match parseJElems fuel r1 with
          | some (elems, r2) => some (v :: elems, r2)
          | none => none)
       | ']' :: r1 => some ([v], r1)
       | _ => none)
    | none => none

end

/-- `JSON.parse(s)`: a complete value with only trailing whitespace. -/
def jsonParse (s : String) : Option Json :=
  match parseJValue (s.data.length + 1) s.data with
  | some (v, rest) =>
    (match skipWs rest with
     | [] => some v
     | _ => none)
  | none => none

/-- Longest prefix ending at the last `}`, if any. -/
def takeToLastClose : List Char → Option (List Char)
  | [] => none
  | c :: rest =>
    match takeToLastClose rest with
    | some t => some (c :: t)
    | none => if c = '}' then some [c] else none

/-- `customLintLog.match(/{.*}/s)`: from the leftmost viable `{`,
greedily (`.` matches newlines) to the last `}`. -/
def matchBracesL : List Char → Option (List Char)
  | [] => none
  | c :: rest =>
    if c = '{' then
      match takeToLastClose rest with
      | some t => some (c :: t)
      | none => matchBracesL rest
    else matchBracesL rest

/-- `customLintLog.match(/{.*}/s)` on a string. -/
def matchBraces (s : String) : Option String :=
  (matchBracesL s.data).map String.mk

/-- `JSON.stringify({version: 1, diagnostics: []})` — the fallback
payload when the log contains no braced region. -/
def defaultCustomLintJson : String :=
  "\x7b\"version\":1,\"diagnostics\":[]\x7d"

/-- JS property access on a parsed JSON value (`undefined` is `none`;
`JSON.parse` keeps the last of duplicate keys). -/
def getField (j : Json) (key : String) : Option Json :=
  match j with
  | .obj fields => (fields.reverse.find? (fun kv => kv.1 = key)).map (·.2)
  | _ => none

/-- `severity.toLowerCase()` (ASCII case mapping). -/
def toLowerS (s : String) : String :=
  ⟨s.data.map Char.toLower⟩

/-- Build one `Issue` from one entry of the `diagnostics` array:
`new Issue(diag.severity.toLowerCase(), diag.problemMessage,
diag.location.file.replace(...), diag.location.range.start.line,
diag.location.range.start.column)`.  A missing or non-string `severity`
or `file`, or a missing `location`/`range`/`start`, raises a
`TypeError`; a missing `problemMessage` is interpolated as JS
`undefined`; non-numeric `line`/`column` values are outside the schema
and not modelled further. -/
def extractDiagnostic (workingDir : String) (diag : Json) : Except String Issue :=
  match getField diag "severity" with
  | some (.str sev) =>
    let msg := match getField diag "problemMessage" with
      | some (.str s) => s
      | _ => "undefined"
    (match getField diag "location" with
     | some loc =>
       (match getField loc "file" with
        | some (.str file) =>
          (match getField loc "range" with
           | some range =>
             (match getField range "start" with
              | some start =>
                let line : Int := match getField start "line" with
                  | some (.num n) => n
                  | _ => 0
                let column : Int := match getField start "column" with
                  | some (.num n) => n
                  | _ => 0
                .ok ⟨toLowerS sev, msg, normalizeFile workingDir file, line, column⟩
              | none => .error "TypeError: cannot read properties of undefined (reading line)")
           | none => .error "TypeError: cannot read properties of undefined (reading start)")
        | _ => .error "TypeError: file.replace is not a function")
     | none => .error "TypeError: cannot read properties of undefined (reading file)")
  | _ => .error "TypeError: severity.toLowerCase is not a function"

/-- `CustomLintParser.parse()`.  `jsonFile` is the configured log path
(`none` is JS `undefined`); `content` is what `fs.readFileSync` would
return for it.  A thrown JS exception is an `Except.error` (the caller
catches it and aborts the run). -/
def CustomLintParser.parse (jsonFile : Option String) (workingDir content : String) :
    Except String (List Issue) :=
  match jsonFile with
  | none => .ok []
  | some p =>
    if p = "" then .ok []
    else
      let jsonString := match matchBraces content with
        | some m => m
        | none => defaultCustomLintJson
      match jsonParse jsonString with
      | none => .error "SyntaxError: Unexpected token in JSON"
      | some jsonData =>
        match getField jsonData "diagnostics" with
        | some (.arr diags) => diags.mapM (extractDiagnostic workingDir)
        | _ => .error "TypeError: diagnostics.map is not a function"

/-! ## Comment synthesis and the pipeline of `module.exports`

The GitHub API is an injected capability; the pipeline is modelled as
the list of requests it issues against a constant snapshot of the remote
state (the issue-comment store, the diff text, the review-comment
store).  Each store listing returns at most one page (`per_page`). -/

/-- `filterIssuesByDiff(diff, issues)`. -/
def filterIssuesByDiff (diff : DiffState) (issues : List Issue) :
    List Issue × List Issue :=
  issues.partition fun issue => fileHasChange diff issue.file issue.line

/-- The grouping key `` `${issue.file}:${issue.line}` ``. -/
def groupKey (issue : Issue) : String :=
  issue.file ++ ":" ++ toString issue.line

/-- Append an issue to its group, creating the group at the end on first
sight (JS object insertion order). -/
def addToGroup : List (String × List Issue) → String → Issue → List (String × List Issue)
  | [], k, i => [(k, [i])]
  | (k0, g) :: rest, k, i =>
    if k0 = k then (k0, g ++ [i]) :: rest
    else (k0, g) :: addToGroup rest k i

/-- `groupIssuesByLine(issues)`. -/
def groupIssuesByLine (issues : List Issue) : List (List Issue) :=
  (issues.foldl (fun acc i => addToGroup acc (groupKey i) i) []).map (·.2)

/-- One row of the out-of-diff summary table. -/
def outlineRow (issue : Issue) : String :=
  "<tr>" ++ "<td>" ++ levelIcon issue.level ++ "</td>" ++
    "<td>" ++ issue.file ++ "</td>" ++
    "<td>" ++ toString issue.line ++ "</td>" ++
    "<td>" ++ issue.message ++ "</td>" ++ "</tr>"

/-- `generateTableForIssuesNotInDiff(issuesNotInDiff)`. -/
def generateTableForIssuesNotInDiff (issuesNotInDiff : List Issue) : String :=
  "<p>Flutter Analyze Commenter has detected the following issues, including those within your commits, and additional potential issues due to recent updates to the base branch:</p>" ++
    "<table>" ++
    "<thead><tr><th>Level</th><th>File</th><th>Line</th><th>Message</th></tr></thead>" ++
    "<tbody>" ++
    String.join (issuesNotInDiff.map outlineRow) ++
    "</tbody>" ++
    "</table >" ++
    "<!-- Flutter Analyze Commenter: outline issues -->"

def maxIssues : Nat := 10

def perPage : Nat := 100

def maxIssuesCommentHeader : String :=
  "<!-- Flutter Analyze Commenter: maxIssues -->"

def outlineCommentHeader : String :=
  "<!-- Flutter Analyze Commenter: outline issues -->"

/-- The body of the ceiling-exceeded summary comment. -/
def maxIssuesBody (count : Nat) : String :=
  "Flutter analyze commenter found " ++ toString count ++
    " issues, which exceeds the maximum of " ++ toString maxIssues ++ ".\n" ++
    maxIssuesCommentHeader

/-- An issue comment as returned by `issues.listComments`. -/
structure IssueComment where
  id : Nat
  body : String
deriving Repr, DecidableEq

/-- A review comment as returned by `pulls.listReviewComments`
(`originalLine` embeds `original_line`; either coordinate may be
`null`). -/
structure ApiReviewComment where
  id : Nat
  path : String
  originalLine : Option Int
  line : Option Int
  body : String
deriving Repr, DecidableEq

/-- `comment.original_line || comment.line` — JS `||`: `null`,
`undefined` and `0` are falsy, so a missing or zero `original_line`
falls back to `line` (whatever it is). -/
def jsOrCoord : Option Int → Option Int → Option Int
  | some n, l => if n = 0 then l else some n
  | none, l => l

/-- `new RemoteComment(comment.id, comment.path,
comment.original_line || comment.line, comment.body)`. -/
def mkRemoteComment (c : ApiReviewComment) : RemoteComment :=
  ⟨c.id, c.path, jsOrCoord c.originalLine c.line, c.body⟩

/-- One request issued against the GitHub API. -/
inductive Event where
  | listIssueComments
  | deleteIssueComment (id : Nat)
  | createIssueComment (body : String)
  | fetchDiff
  | listReviewComments
  | createReviewComment (path : String) (line : Int) (body : String)
  | deleteReviewComment (id : Nat)
deriving Repr, DecidableEq

/-- Is this the creation of a ceiling-exceeded summary comment
(recognised by its marker substring)? -/
def isCeilingCreate : Event → Bool
  | .createIssueComment b => jsIncludes b maxIssuesCommentHeader
  | _ => false

/-- The `for (const comment of commentsToAdd)` loop: each iteration
issues its create request inside `try`; a failure (per the `failsAdd`
oracle) is caught, reported, and the loop continues.  Returns the issued
requests and the comments whose creation was reported as failed. -/
def runAddLoop (failsAdd : Comment → Bool) :
    List Comment → List Event × List Comment
  | [] => ([], [])
  | c :: rest =>
    let tail := runAddLoop failsAdd rest
    (.createReviewComment c.path c.line c.body :: tail.1,
     if failsAdd c then c :: tail.2 else tail.2)

/-- The `for (const comment of commentsToDelete)` loop, same shape. -/
def runDeleteLoop (failsDelete : RemoteComment → Bool) :
    List RemoteComment → List Event × List RemoteComment
  | [] => ([], [])
  | c :: rest =>
    let tail := runDeleteLoop failsDelete rest
    (.deleteReviewComment c.id :: tail.1,
     if failsDelete c then c :: tail.2 else tail.2)

/-- The pipeline after the ceiling check (index.js lines 94–231): fetch
the diff, split and group the issues, replace the outline comment, list
the review comments, then apply the reconciliation plan. -/
def runAfterCeiling (issues : List Issue) (issueComments : List IssueComment)
    (diffText : String) (reviewComments : List ApiReviewComment)
    (failsAdd : Comment → Bool) (failsDelete : RemoteComment → Bool) : List Event :=
  let diff := Diff.parse diffText
  let split := filterIssuesByDiff diff issues
  let inlineComments := (groupIssuesByLine split.1).map Comment.ofIssues
  let outlineComment : Option String :=
    if split.2.length > 0 then some (generateTableForIssuesNotInDiff split.2) else none
  let existOutline :=
    (issueComments.take perPage).find? fun c => jsIncludes c.body outlineCommentHeader
  let remoteComments := (reviewComments.take perPage).map mkRemoteComment
  [Event.fetchDiff] ++
    [Event.listIssueComments] ++
    (match existOutline with
     | some c => [Event.deleteIssueComment c.id]
     | none => []) ++
    (match outlineComment with
     | some body => [Event.createIssueComment body]
     | none => []) ++
    [Event.listReviewComments] ++
    (runAddLoop failsAdd (commentsToAdd inlineComments remoteComments)).1 ++
    (runDeleteLoop failsDelete (commentsToDelete inlineComments remoteComments)).1

/-- The whole pipeline of `module.exports` after log parsing (index.js
lines 53–231): list the issue comments and delete a previous
ceiling-exceeded comment unconditionally, then either create the
ceiling-exceeded comment and stop, or continue with the diff. -/
def run (issues : List Issue) (issueComments : List IssueComment)
    (diffText : String) (reviewComments : List ApiReviewComment)
    (failsAdd : Comment → Bool) (failsDelete : RemoteComment → Bool) : List Event :=
  let maxIssuesFound :=
    (issueComments.take perPage).find? fun c => jsIncludes c.body maxIssuesCommentHeader
  [Event.listIssueComments] ++
    (match maxIssuesFound with
     | some c => [Event.deleteIssueComment c.id]
     | none => []) ++
    (if issues.length > maxIssues then
      [Event.createIssueComment (maxIssuesBody issues.length)]
     else
      runAfterCeiling issues issueComments diffText reviewComments failsAdd failsDelete)

end FlutterAnalyze

namespace FlutterAnalyze

/-! ## Generic helper lemmas -/

theorem mk_data (s : String) : String.mk s.data = s := by
  cases s; rfl

theorem join_data_aux (l : List String) : ∀ acc : String,
    (l.foldl (· ++ ·) acc).data = acc.data ++ (l.map String.data).flatten := by
  induction l with
  | nil => intro acc; simp
  | cons x xs ih => intro acc; simp [ih, String.data_append]

theorem join_data (l : List String) :
    (String.join l).data = (l.map String.data).flatten := by
  simpa [String.join] using join_data_aux l ""

theorem isPrefixOfL_append (p s : List Char) : isPrefixOfL p (p ++ s) = true := by
  induction p with
  | nil => rfl
  | cons c cs ih => simp [isPrefixOfL, ih]

theorem dropPrefixQ_append (p s : List Char) : dropPrefixQ p (p ++ s) = some s := by
  induction p with
  | nil => rfl
  | cons c cs ih => simp [dropPrefixQ, ih]

theorem replaceFirstL_exact (p r s : List Char) :
    replaceFirstL p r (p ++ s) = r ++ s := by
  match p, s with
  | [], [] => simp [replaceFirstL, isPrefixOfL]
  | [], c :: cs => simp [replaceFirstL, isPrefixOfL]
  | a :: as, s =>
    show replaceFirstL (a :: as) r (a :: (as ++ s)) = r ++ s
    have hp : isPrefixOfL (a :: as) (a :: (as ++ s)) = true := isPrefixOfL_append _ s
    rw [replaceFirstL, if_pos hp]
    simp only [List.length_cons, List.drop_succ_cons]
    congr 1
    exact List.drop_left as s

theorem splitNlL_no_nl (cs : List Char) (h : '\n' ∉ cs) : splitNlL cs = [cs] := by
  induction cs with
  | nil => rfl
  | cons c cs ih =>
    have hc : ¬ c = '\n' := fun hh => h (hh ▸ List.mem_cons_self c cs)
    have hcs : '\n' ∉ cs := fun hh => h (List.mem_cons_of_mem c hh)
    simp [splitNlL, hc, ih hcs]

theorem splitNlL_append_nl (a b : List Char) (h : '\n' ∉ a) :
    splitNlL (a ++ '\n' :: b) = a :: splitNlL b := by
  induction a with
  | nil => simp [splitNlL]
  | cons c cs ih =>
    have hc : ¬ c = '\n' := fun hh => h (hh ▸ List.mem_cons_self c cs)
    have hcs : '\n' ∉ cs := fun hh => h (List.mem_cons_of_mem c hh)
    show splitNlL (c :: (cs ++ '\n' :: b)) = (c :: cs) :: splitNlL b
    rw [splitNlL, if_neg hc, ih hcs]

theorem jsSplitNl_joinNl (ls : List String) (hne : ls ≠ [])
    (h : ∀ l ∈ ls, '\n' ∉ l.data) : jsSplitNl (joinNl ls) = ls := by
  induction ls with
  | nil => exact absurd rfl hne
  | cons x xs ih =>
    cases xs with
    | nil =>
      simp only [joinNl, jsSplitNl]
      rw [splitNlL_no_nl x.data (h x (List.mem_cons_self x []))]
      simp [mk_data]
    | cons y ys =>
      have hx : '\n' ∉ x.data := h x (List.mem_cons_self _ _)
      have hrest : ∀ l ∈ y :: ys, '\n' ∉ l.data :=
        fun l hl => h l (List.mem_cons_of_mem x hl)
      have ihy := ih (by simp) hrest
      show jsSplitNl (x ++ "\n" ++ joinNl (y :: ys)) = x :: y :: ys
      have hdata : (x ++ "\n" ++ joinNl (y :: ys)).data =
          x.data ++ '\n' :: (joinNl (y :: ys)).data := by
        simp [String.data_append]
      unfold jsSplitNl
      rw [hdata, splitNlL_append_nl _ _ hx]
      simp only [List.map_cons, mk_data]
      unfold jsSplitNl at ihy
      rw [ihy]

/-! ## Digit-rendering lemmas and the hunk-header round trip -/

theorem digitChar_val (d : Nat) (h : d < 10) : (digitChar d).toNat = 48 + d := by
  interval_cases d <;> decide

theorem isDigitC_digitChar (d : Nat) (h : d < 10) : isDigitC (digitChar d) = true := by
  interval_cases d <;> decide

theorem natDigits_ne_nil (n : Nat) : natDigits n ≠ [] := by
  rw [natDigits]; split <;> simp

theorem natDigits_all_digit (n : Nat) : ∀ c ∈ natDigits n, isDigitC c = true := by
  induction n using Nat.strong_induction_on with
  | _ n ih =>
    rw [natDigits]
    split
    · intro c hc
      simp at hc
      exact hc ▸ isDigitC_digitChar n ‹n < 10›
    · intro c hc
      simp at hc
      rcases hc with hc | hc
      · exact ih (n / 10) (Nat.div_lt_self (by omega) (by omega)) c hc
      · exact hc ▸ isDigitC_digitChar (n % 10) (Nat.mod_lt _ (by omega))

theorem parseNatL_append_digit (ds : List Char) (c : Char) :
    parseNatL (ds ++ [c]) = parseNatL ds * 10 + (c.toNat - '0'.toNat) := by
  simp [parseNatL, List.foldl_append]

theorem parseNatL_natDigits (n : Nat) : parseNatL (natDigits n) = n := by
  induction n using Nat.strong_induction_on with
  | _ n ih =>
    rw [natDigits]
    split
    · show parseNatL [digitChar n] = n
      simp only [parseNatL, List.foldl_cons, List.foldl_nil, digitChar_val n ‹n < 10›,
        show '0'.toNat = 48 from rfl]
      omega
    · rw [parseNatL_append_digit, ih (n / 10) (Nat.div_lt_self (by omega) (by omega)),
        digitChar_val (n % 10) (Nat.mod_lt _ (by omega)), show '0'.toNat = 48 from rfl]
      have := Nat.div_add_mod n 10
      omega


theorem digits1_none (r : List Char) (h : headNotDigit r) : digits1 r = none := by
  cases r with
  | nil => rfl
  | cons c cs => simp [digits1, h, headNotDigit] at h ⊢; simp [h]

theorem digits1_exact (ds : List Char) (r : List Char) (h1 : ds ≠ [])
    (h2 : ∀ c ∈ ds, isDigitC c = true) (h3 : headNotDigit r) :
    digits1 (ds ++ r) = some (ds, r) := by
  induction ds with
  | nil => exact absurd rfl h1
  | cons d ds ih =>
    cases ds with
    | nil =>
      have hd := h2 d (by simp)
      show digits1 (d :: ([] ++ r)) = some ([d], r)
      rw [List.nil_append, digits1, if_pos hd, digits1_none r h3]
    | cons d2 ds2 =>
      have hd := h2 d (by simp)
      have hrest := ih (by simp) (fun c hc => h2 c (List.mem_cons_of_mem d hc))
      show digits1 (d :: (d2 :: ds2 ++ r)) = some (d :: d2 :: ds2, r)
      rw [digits1, if_pos hd, hrest]

theorem dropWhile_digits (ds r : List Char) (h2 : ∀ c ∈ ds, isDigitC c = true)
    (h3 : headNotDigit r) : (ds ++ r).dropWhile isDigitC = r := by
  induction ds with
  | nil =>
    cases r with
    | nil => rfl
    | cons c cs => simp [headNotDigit] at h3; simp [List.dropWhile, h3]
  | cons d ds ih =>
    have hd := h2 d (by simp)
    simp only [List.cons_append, List.dropWhile, hd]
    exact ih (fun c hc => h2 c (List.mem_cons_of_mem d hc))


theorem parseHunkHeader_generic (A B C D : List Char)
    (hA1 : A ≠ []) (hA2 : ∀ c ∈ A, isDigitC c = true)
    (hB : ∀ c ∈ B, isDigitC c = true)
    (hC1 : C ≠ []) (hC2 : ∀ c ∈ C, isDigitC c = true)
    (hD : ∀ c ∈ D, isDigitC c = true) :
    parseHunkHeader ⟨"@@ -".data ++ A ++ [','] ++ B ++ " +".data ++ C ++ [','] ++ D ++
      " @@".data⟩ = some (parseNatL C) := by
  have hdata : ("@@ -".data ++ A ++ [','] ++ B ++ " +".data ++ C ++ [','] ++ D ++
      " @@".data) = "@@ -".data ++ (A ++ (',' :: (B ++ (' ' :: '+' ::
        (C ++ (',' :: (D ++ (' ' :: '@' :: '@' :: [])))))))) := by
    simp [List.append_assoc]
  have e1 : digits1 (A ++ (',' :: (B ++ (' ' :: '+' ::
      (C ++ (',' :: (D ++ (' ' :: '@' :: '@' :: [])))))))) =
      some (A, ',' :: (B ++ (' ' :: '+' ::
        (C ++ (',' :: (D ++ (' ' :: '@' :: '@' :: []))))))) :=
    digits1_exact _ _ hA1 hA2 (show isDigitC ',' = false by decide)
  have e2 : skipOptCommaDigits (',' :: (B ++ (' ' :: '+' ::
      (C ++ (',' :: (D ++ (' ' :: '@' :: '@' :: []))))))) =
      (B ++ (' ' :: '+' :: (C ++ (',' :: (D ++
        (' ' :: '@' :: '@' :: [])))))).dropWhile isDigitC := rfl
  have e3 : (B ++ (' ' :: '+' :: (C ++ (',' :: (D ++
      (' ' :: '@' :: '@' :: [])))))).dropWhile isDigitC =
      ' ' :: '+' :: (C ++ (',' :: (D ++ (' ' :: '@' :: '@' :: [])))) :=
    dropWhile_digits _ _ hB (show isDigitC ' ' = false by decide)
  have e4 : dropPrefixQ " +".data (' ' :: '+' :: (C ++ (',' :: (D ++
      (' ' :: '@' :: '@' :: []))))) =
      some (C ++ (',' :: (D ++ (' ' :: '@' :: '@' :: [])))) :=
    dropPrefixQ_append " +".data _
  have e5 : digits1 (C ++ (',' :: (D ++ (' ' :: '@' :: '@' :: [])))) =
      some (C, ',' :: (D ++ (' ' :: '@' :: '@' :: []))) :=
    digits1_exact _ _ hC1 hC2 (show isDigitC ',' = false by decide)
  have e6 : skipOptCommaDigits (',' :: (D ++ (' ' :: '@' :: '@' :: []))) =
      (D ++ (' ' :: '@' :: '@' :: [])).dropWhile isDigitC := rfl
  have e7 : (D ++ (' ' :: '@' :: '@' :: [])).dropWhile isDigitC =
      ' ' :: '@' :: '@' :: [] := dropWhile_digits _ _ hD (show isDigitC ' ' = false by decide)
  have e8 : dropPrefixQ " @@".data (' ' :: '@' :: '@' :: []) = some [] :=
    dropPrefixQ_append " @@".data []
  unfold parseHunkHeader
  simp only [hdata, dropPrefixQ_append, e1, e2, e3, e4, e5, e6, e7, e8]

theorem parseHunkHeader_render (h : Hunk) :
    parseHunkHeader (renderHunkHeader h) = some h.newStart := by
  unfold renderHunkHeader
  rw [parseHunkHeader_generic (natDigits h.oldStart) (natDigits h.oldLen)
    (natDigits h.newStart) (natDigits h.newLen) (natDigits_ne_nil _)
    (natDigits_all_digit _) (natDigits_all_digit _) (natDigits_ne_nil _)
    (natDigits_all_digit _) (natDigits_all_digit _), parseNatL_natDigits]

/-! ## C1: the reconciler computes the structural set differences -/

theorem mem_commentsToAdd (locals : List Comment) (remotes : List RemoteComment)
    (d : Comment) :
    d ∈ commentsToAdd locals remotes ↔
      d ∈ locals ∧ ∀ r ∈ remotes, r.matchesLocalComment d = false := by
  simp only [commentsToAdd, List.mem_filter, Bool.not_eq_true', List.any_eq_false,
    Bool.not_eq_true]

theorem mem_commentsToDelete (locals : List Comment) (remotes : List RemoteComment)
    (r : RemoteComment) :
    r ∈ commentsToDelete locals remotes ↔
      r ∈ remotes ∧ ∀ d ∈ locals, r.matchesLocalComment d = false := by
  simp only [commentsToDelete, List.mem_filter, Bool.not_eq_true', List.any_eq_false,
    Bool.not_eq_true]

/-- C1: For every sequence of desired comments and every sequence of
remote comments, `commentsToAdd` is exactly the desired comments no
remote comment structurally matches and `commentsToDelete` is exactly
the remote comments no desired comment structurally matches;
consequently `commentsToAdd` is (structurally) disjoint from the remote
set, `commentsToDelete` is a subset of the remote set, and
`commentsToDelete` is (structurally) disjoint from the desired set. -/
theorem reconciler_set_differences
    (locals : List Comment) (remotes : List RemoteComment) :
    (∀ d : Comment, d ∈ commentsToAdd locals remotes ↔
        d ∈ locals ∧ ∀ r ∈ remotes, r.matchesLocalComment d = false) ∧
    (∀ r : RemoteComment, r ∈ commentsToDelete locals remotes ↔
        r ∈ remotes ∧ ∀ d ∈ locals, r.matchesLocalComment d = false) ∧
    (∀ d ∈ commentsToAdd locals remotes, ∀ r ∈ remotes,
        r.matchesLocalComment d = false) ∧
    (∀ r ∈ commentsToDelete locals remotes, r ∈ remotes) ∧
    (∀ r ∈ commentsToDelete locals remotes, ∀ d ∈ locals,
        r.matchesLocalComment d = false) := by
  refine ⟨mem_commentsToAdd locals remotes, mem_commentsToDelete locals remotes, ?_, ?_, ?_⟩
  · intro d hd r hr
    exact ((mem_commentsToAdd locals remotes d).1 hd).2 r hr
  · intro r hr
    exact ((mem_commentsToDelete locals remotes r).1 hr).1
  · intro r hr d hd
    exact ((mem_commentsToDelete locals remotes r).1 hr).2 d hd

theorem reconciler_set_differences_witness :
    (⟨9, "p", some 1, "other"⟩ : RemoteComment) ∈
      [(⟨9, "p", some 1, "other"⟩ : RemoteComment)] :=
  (reconciler_set_differences [⟨"p", 1, "b"⟩] [⟨9, "p", some 1, "other"⟩]).2.2.2.1
    ⟨9, "p", some 1, "other"⟩ (by decide)

end FlutterAnalyze


namespace FlutterAnalyze

/-! ## Classification of rendered diff lines under `parseStep` -/

theorem jsStartsWith_mk_cons_ne (c : Char) (s : List Char) (p : Char) (ps : List Char)
    (hp : p ≠ c) : isPrefixOfL (p :: ps) (c :: s) = false := by
  simp [isPrefixOfL, hp]

theorem parseHunkHeader_cons_ne (c : Char) (s : List Char) (h : c ≠ '@') :
    parseHunkHeader ⟨c :: s⟩ = none := by
  unfold parseHunkHeader
  have : dropPrefixQ "@@ -".data (c :: s) = none := by
    show dropPrefixQ ('@' :: "@ -".data) (c :: s) = none
    unfold dropPrefixQ
    simp [Ne.symm h]
  rw [this]

theorem parseStep_ctx (st : DiffState) (s : String) :
    parseStep st (renderHunkLine (.ctx s)) =
      { st with lineCounter := st.lineCounter + 1 } := by
  show parseStep st ⟨' ' :: s.data⟩ = _
  unfold parseStep
  rw [show jsStartsWith ⟨' ' :: s.data⟩ "+++ b/" =
      isPrefixOfL ('+' :: "++ b/".data) (' ' :: s.data) from rfl]
  rw [jsStartsWith_mk_cons_ne _ _ _ _ (by decide)]
  rw [parseHunkHeader_cons_ne _ _ (by decide)]
  rw [show jsStartsWith ⟨' ' :: s.data⟩ "+" =
      isPrefixOfL ('+' :: "".data) (' ' :: s.data) from rfl]
  rw [jsStartsWith_mk_cons_ne _ _ _ _ (by decide)]
  rw [show jsStartsWith ⟨' ' :: s.data⟩ "-" =
      isPrefixOfL ('-' :: "".data) (' ' :: s.data) from rfl]
  rw [jsStartsWith_mk_cons_ne _ _ _ _ (by decide)]
  simp

theorem parseStep_rem (st : DiffState) (s : String) :
    parseStep st (renderHunkLine (.rem s)) = st := by
  show parseStep st ⟨'-' :: s.data⟩ = _
  unfold parseStep
  rw [show jsStartsWith ⟨'-' :: s.data⟩ "+++ b/" =
      isPrefixOfL ('+' :: "++ b/".data) ('-' :: s.data) from rfl]
  rw [jsStartsWith_mk_cons_ne _ _ _ _ (by decide)]
  rw [parseHunkHeader_cons_ne _ _ (by decide)]
  rw [show jsStartsWith ⟨'-' :: s.data⟩ "+" =
      isPrefixOfL ('+' :: "".data) ('-' :: s.data) from rfl]
  rw [jsStartsWith_mk_cons_ne _ _ _ _ (by decide)]
  rw [show jsStartsWith ⟨'-' :: s.data⟩ "-" =
      isPrefixOfL ('-' :: "".data) ('-' :: s.data) from rfl]
  simp [isPrefixOfL]

theorem parseStep_add (st : DiffState) (s : String)
    (hwf : jsStartsWith (renderHunkLine (.add s)) "+++ b/" = false) :
    parseStep st (renderHunkLine (.add s)) =
      { st with lineCounter := st.lineCounter + 1,
                files := addFileChange st.files st.currentFile (st.lineCounter + 1) } := by
  show parseStep st ⟨'+' :: s.data⟩ = _
  unfold parseStep
  rw [show jsStartsWith ⟨'+' :: s.data⟩ "+++ b/" =
      jsStartsWith (renderHunkLine (.add s)) "+++ b/" from rfl, hwf]
  rw [parseHunkHeader_cons_ne _ _ (by decide)]
  rw [show jsStartsWith ⟨'+' :: s.data⟩ "+" =
      isPrefixOfL ('+' :: "".data) ('+' :: s.data) from rfl]
  simp [isPrefixOfL]

theorem parseStep_fileHeader (st : DiffState) (name : String) :
    parseStep st ("+++ b/" ++ name) =
      { st with currentFile := name, lineCounter := 0 } := by
  unfold parseStep
  have h1 : jsStartsWith ("+++ b/" ++ name) "+++ b/" = true := by
    unfold jsStartsWith
    rw [String.data_append]
    exact isPrefixOfL_append _ _
  rw [h1]
  have h2 : jsReplaceFirst ("+++ b/" ++ name) "+++ b/" "" = name := by
    unfold jsReplaceFirst
    rw [String.data_append, replaceFirstL_exact]
    show String.mk name.data = name
    exact mk_data name
  simp [h2]

theorem parseStep_hunkHeaderLine (st : DiffState) (h : Hunk) :
    parseStep st (renderHunkHeader h) =
      { st with lineCounter := (h.newStart : Int) - 1 } := by
  unfold parseStep
  have h1 : jsStartsWith (renderHunkHeader h) "+++ b/" = false := by
    show isPrefixOfL ('+' :: "++ b/".data) ('@' :: _) = false
    exact jsStartsWith_mk_cons_ne _ _ _ _ (by decide)
  rw [h1, parseHunkHeader_render]
  simp

end FlutterAnalyze

namespace FlutterAnalyze

theorem foldl_parseStep_body (body : List HunkLine) : ∀ st : DiffState,
    (∀ s : String, HunkLine.add s ∈ body →
      jsStartsWith (renderHunkLine (.add s)) "+++ b/" = false) →
    (body.map renderHunkLine).foldl parseStep st =
      { files := addHunkLines st.currentFile (hunkWalk st.lineCounter body) st.files,
        currentFile := st.currentFile,
        lineCounter := st.lineCounter + nonRemCount body } := by
  induction body with
  | nil => intro st _; simp [hunkWalk, nonRemCount, addHunkLines]
  | cons l rest ih =>
    intro st hwf
    cases l with
    | add s =>
      rw [List.map_cons, List.foldl_cons, parseStep_add st s (hwf s (List.mem_cons_self _ _))]
      rw [ih _ (fun s2 hs2 => hwf s2 (List.mem_cons_of_mem _ hs2))]
      simp only [hunkWalk, nonRemCount, addHunkLines, List.foldl_cons, DiffState.mk.injEq]
      refine ⟨trivial, trivial, by omega⟩
    | rem s =>
      rw [List.map_cons, List.foldl_cons, parseStep_rem st s]
      rw [ih st (fun s2 hs2 => hwf s2 (List.mem_cons_of_mem _ hs2))]
      simp only [hunkWalk, nonRemCount]
    | ctx s =>
      rw [List.map_cons, List.foldl_cons, parseStep_ctx st s]
      rw [ih _ (fun s2 hs2 => hwf s2 (List.mem_cons_of_mem _ hs2))]
      simp only [hunkWalk, nonRemCount, DiffState.mk.injEq]
      refine ⟨trivial, trivial, by omega⟩

theorem foldl_parseStep_hunk (h : Hunk) (st : DiffState)
    (hwf : ∀ s : String, HunkLine.add s ∈ h.body →
      jsStartsWith (renderHunkLine (.add s)) "+++ b/" = false) :
    (renderHunk h).foldl parseStep st =
      { files := addHunkLines st.currentFile (hunkAddedLines h) st.files,
        currentFile := st.currentFile,
        lineCounter := ((h.newStart : Int) - 1) + nonRemCount h.body } := by
  unfold renderHunk
  rw [List.foldl_cons, parseStep_hunkHeaderLine, foldl_parseStep_body h.body _ hwf]
  rfl

theorem foldl_parseStep_hunks (hunks : List Hunk) : ∀ st : DiffState,
    (∀ h ∈ hunks, ∀ s : String, HunkLine.add s ∈ h.body →
      jsStartsWith (renderHunkLine (.add s)) "+++ b/" = false) →
    ∃ k, ((hunks.map renderHunk).flatten).foldl parseStep st =
      { files := addHunks st.currentFile hunks st.files,
        currentFile := st.currentFile, lineCounter := k } := by
  induction hunks with
  | nil => intro st _; exact ⟨st.lineCounter, by simp [addHunks]⟩
  | cons h rest ih =>
    intro st hwf
    rw [List.map_cons, List.flatten_cons, List.foldl_append]
    rw [foldl_parseStep_hunk h st (hwf h (List.mem_cons_self _ _))]
    obtain ⟨k, hk⟩ := ih
      { files := addHunkLines st.currentFile (hunkAddedLines h) st.files,
        currentFile := st.currentFile,
        lineCounter := ((h.newStart : Int) - 1) + nonRemCount h.body }
      (fun h2 hh2 => hwf h2 (List.mem_cons_of_mem _ hh2))
    refine ⟨k, ?_⟩
    rw [hk]
    simp [addHunks]

theorem foldl_parseStep_file (fd : FileDiff) (st : DiffState)
    (hwf : ∀ h ∈ fd.hunks, ∀ s : String, HunkLine.add s ∈ h.body →
      jsStartsWith (renderHunkLine (.add s)) "+++ b/" = false) :
    ∃ k, (renderFile fd).foldl parseStep st =
      { files := addHunks fd.name fd.hunks st.files,
        currentFile := fd.name, lineCounter := k } := by
  unfold renderFile
  rw [List.foldl_cons, parseStep_fileHeader]
  exact foldl_parseStep_hunks fd.hunks _ hwf

theorem foldl_parseStep_diff (fs : List FileDiff) : ∀ st : DiffState,
    addLinesSafe fs →
    ∃ cf k, (renderDiff fs).foldl parseStep st =
      { files := addFiles fs st.files, currentFile := cf, lineCounter := k } := by
  induction fs with
  | nil =>
    intro st _
    exact ⟨st.currentFile, st.lineCounter, by simp [renderDiff, addFiles]⟩
  | cons fd rest ih =>
    intro st hwf
    rw [show renderDiff (fd :: rest) = renderFile fd ++ renderDiff rest from by
      simp [renderDiff], List.foldl_append]
    obtain ⟨k1, hk1⟩ := foldl_parseStep_file fd st
      (fun h hh => hwf fd (List.mem_cons_self _ _) h hh)
    rw [hk1]
    obtain ⟨cf, k, hk⟩ := ih
      { files := addHunks fd.name fd.hunks st.files,
        currentFile := fd.name, lineCounter := k1 }
      (fun fd2 hfd2 => hwf fd2 (List.mem_cons_of_mem _ hfd2))
    refine ⟨cf, k, ?_⟩
    rw [hk]
    simp [addFiles]

end FlutterAnalyze

namespace FlutterAnalyze

/-! ## Membership characterization of the diff index -/

theorem filesHasChange_cons (d : DiffFile) (rest : List DiffFile) (f : String) (l : Int) :
    filesHasChange (d :: rest) f l =
      if d.fileName = f then d.changes.contains l else filesHasChange rest f l := by
  unfold filesHasChange
  by_cases h : d.fileName = f
  · rw [List.find?_cons_of_pos _ (by simp [h])]
    simp [h]
  · rw [List.find?_cons_of_neg _ (by simp [h])]
    simp [h]

theorem filesHasChange_addFileChange (files : List DiffFile) (n : String) (k : Int)
    (f : String) (l : Int) :
    filesHasChange (addFileChange files n k) f l = true ↔
      filesHasChange files f l = true ∨ (f = n ∧ l = k) := by
  induction files with
  | nil =>
    show filesHasChange [⟨n, [k]⟩] f l = true ↔
      filesHasChange [] f l = true ∨ (f = n ∧ l = k)
    rw [filesHasChange_cons]
    by_cases h : n = f
    · simp [h, filesHasChange, eq_comm]
    · simp only [if_neg h]
      simp [filesHasChange]
      exact fun hfn _ => h hfn.symm
  | cons d rest ih =>
    by_cases hdn : d.fileName = n
    · rw [show addFileChange (d :: rest) n k = ⟨d.fileName, d.changes ++ [k]⟩ :: rest from by
        simp [addFileChange, hdn]]
      rw [filesHasChange_cons, filesHasChange_cons]
      by_cases hdf : d.fileName = f
      · have hfn : f = n := hdf ▸ hdn
        simp [hdf, hfn]
      · simp only [if_neg hdf]
        have hfn : ¬ f = n := fun hh => hdf (hdn ▸ hh ▸ rfl)
        simp [hfn]
    · rw [show addFileChange (d :: rest) n k = d :: addFileChange rest n k from by
        simp [addFileChange, hdn]]
      rw [filesHasChange_cons, filesHasChange_cons]
      by_cases hdf : d.fileName = f
      · have hfn : ¬ f = n := fun hh => hdn (hdf ▸ hh ▸ rfl)
        simp [hdf, hfn]
      · simp only [if_neg hdf]
        exact ih

theorem filesHasChange_addHunkLines (ks : List Int) : ∀ (files : List DiffFile)
    (n f : String) (l : Int),
    filesHasChange (addHunkLines n ks files) f l = true ↔
      filesHasChange files f l = true ∨ (f = n ∧ l ∈ ks) := by
  induction ks with
  | nil => intro files n f l; simp [addHunkLines]
  | cons k ks ih =>
    intro files n f l
    show filesHasChange (addHunkLines n ks (addFileChange files n k)) f l = true ↔ _
    rw [ih, filesHasChange_addFileChange]
    simp [List.mem_cons]
    tauto

theorem filesHasChange_addHunks (hunks : List Hunk) : ∀ (files : List DiffFile)
    (n f : String) (l : Int),
    filesHasChange (addHunks n hunks files) f l = true ↔
      filesHasChange files f l = true ∨ (f = n ∧ ∃ h ∈ hunks, l ∈ hunkAddedLines h) := by
  induction hunks with
  | nil => intro files n f l; simp [addHunks]
  | cons h hunks ih =>
    intro files n f l
    show filesHasChange (addHunks n hunks (addHunkLines n (hunkAddedLines h) files)) f l
      = true ↔ _
    rw [ih, filesHasChange_addHunkLines]
    simp only [List.exists_mem_cons_iff]
    constructor
    · rintro ((hbase | ⟨rfl, hmem⟩) | ⟨rfl, h2, hh2, hmem⟩)
      · exact Or.inl hbase
      · exact Or.inr ⟨rfl, Or.inl hmem⟩
      · exact Or.inr ⟨rfl, Or.inr ⟨h2, hh2, hmem⟩⟩
    · rintro (hbase | ⟨rfl, hmem | ⟨h2, hh2, hmem⟩⟩)
      · exact Or.inl (Or.inl hbase)
      · exact Or.inl (Or.inr ⟨rfl, hmem⟩)
      · exact Or.inr ⟨rfl, h2, hh2, hmem⟩

theorem filesHasChange_addFiles (fs : List FileDiff) : ∀ (files : List DiffFile)
    (f : String) (l : Int),
    filesHasChange (addFiles fs files) f l = true ↔
      filesHasChange files f l = true ∨ specTouched fs f l := by
  induction fs with
  | nil => intro files f l; simp [addFiles, specTouched]
  | cons fd fs ih =>
    intro files f l
    show filesHasChange (addFiles fs (addHunks fd.name fd.hunks files)) f l = true ↔ _
    rw [ih, filesHasChange_addHunks]
    simp only [specTouched, List.exists_mem_cons_iff]
    constructor
    · rintro ((h | ⟨rfl, hh⟩) | h)
      · exact Or.inl h
      · exact Or.inr (Or.inl ⟨rfl, hh⟩)
      · obtain ⟨fd2, hfd2, hrest⟩ := h
        exact Or.inr (Or.inr ⟨fd2, hfd2, hrest⟩)
    · rintro (h | (⟨rfl, hh⟩ | ⟨fd2, hfd2, hrest⟩))
      · exact Or.inl (Or.inl h)
      · exact Or.inl (Or.inr ⟨rfl, hh⟩)
      · exact Or.inr ⟨fd2, hfd2, hrest⟩

end FlutterAnalyze

namespace FlutterAnalyze

/-! ## From rendered text back to lines, and the two C3/C4 bridges -/

theorem wfDiff_addLinesSafe (fs : List FileDiff) (hwf : wfDiff fs) : addLinesSafe fs :=
  fun fd hfd h hh _s hs => ((hwf fd hfd).2 h hh _ hs).2

theorem renderDiff_ne_nil (fs : List FileDiff) (h : fs ≠ []) : renderDiff fs ≠ [] := by
  cases fs with
  | nil => exact absurd rfl h
  | cons fd rest => simp [renderDiff, renderFile]

theorem no_nl_natDigits (n : Nat) : '\n' ∉ natDigits n :=
  fun hmem => absurd (natDigits_all_digit n '\n' hmem) (by decide)

theorem no_nl_renderHunkHeader (h : Hunk) : '\n' ∉ (renderHunkHeader h).data := by
  intro hmem
  have hdt : (renderHunkHeader h).data = "@@ -".data ++ natDigits h.oldStart ++ [','] ++
      natDigits h.oldLen ++ " +".data ++ natDigits h.newStart ++ [','] ++
      natDigits h.newLen ++ " @@".data := rfl
  rw [hdt] at hmem
  simp only [List.mem_append, List.mem_singleton] at hmem
  rcases hmem with ((((((((hm | hm) | hm) | hm) | hm) | hm) | hm) | hm) | hm)
  · exact absurd hm (by decide)
  · exact no_nl_natDigits _ hm
  · exact absurd hm (by decide)
  · exact no_nl_natDigits _ hm
  · exact absurd hm (by decide)
  · exact no_nl_natDigits _ hm
  · exact absurd hm (by decide)
  · exact no_nl_natDigits _ hm
  · exact absurd hm (by decide)

theorem no_nl_renderDiff (fs : List FileDiff) (hwf : wfDiff fs) :
    ∀ line ∈ renderDiff fs, '\n' ∉ line.data := by
  intro line hline
  unfold renderDiff at hline
  simp only [List.mem_flatten, List.mem_map] at hline
  obtain ⟨_, ⟨fd, hfd, rfl⟩, hline⟩ := hline
  unfold renderFile at hline
  rcases List.mem_cons.1 hline with rfl | hline
  · rw [String.data_append]
    intro hm
    rcases List.mem_append.1 hm with hm | hm
    · exact absurd hm (by decide)
    · exact (hwf fd hfd).1 hm
  · simp only [List.mem_flatten, List.mem_map] at hline
    obtain ⟨_, ⟨h, hh, rfl⟩, hline⟩ := hline
    rcases List.mem_cons.1 hline with rfl | hline
    · exact no_nl_renderHunkHeader h
    · obtain ⟨l, hl, rfl⟩ := List.mem_map.1 hline
      have hcontent := ((hwf fd hfd).2 h hh l hl).1
      cases l with
      | add s3 =>
        intro hm
        rcases List.mem_cons.1 hm with hm | hm
        · exact absurd hm (by decide)
        · exact hcontent hm
      | rem s =>
        intro hm
        rcases List.mem_cons.1 hm with hm | hm
        · exact absurd hm (by decide)
        · exact hcontent hm
      | ctx s =>
        intro hm
        rcases List.mem_cons.1 hm with hm | hm
        · exact absurd hm (by decide)
        · exact hcontent hm

theorem diffParse_renderDiff (fs : List FileDiff) (hne : fs ≠ []) (hwf : wfDiff fs) :
    Diff.parse (joinNl (renderDiff fs)) = parseLines (renderDiff fs) := by
  unfold Diff.parse
  rw [jsSplitNl_joinNl _ (renderDiff_ne_nil fs hne) (no_nl_renderDiff fs hwf)]

theorem fileHasChange_parseLines_renderDiff (fs : List FileDiff)
    (hsafe : addLinesSafe fs) (f : String) (l : Int) :
    fileHasChange (parseLines (renderDiff fs)) f l = true ↔ specTouched fs f l := by
  obtain ⟨cf, k, hk⟩ := foldl_parseStep_diff fs ⟨[], "", 0⟩ hsafe
  unfold parseLines fileHasChange
  rw [hk]
  show filesHasChange (addFiles fs []) f l = true ↔ _
  rw [filesHasChange_addFiles]
  simp [filesHasChange]

theorem hunkWalk_first_add (pre : List HunkLine) : ∀ (k : Int) (s : String)
    (rest : List HunkLine), (∀ s2 : String, HunkLine.add s2 ∉ pre) →
    (k + ctxCount pre + 1) ∈ hunkWalk k (pre ++ HunkLine.add s :: rest) := by
  induction pre with
  | nil =>
    intro k s rest _
    show (k + 0 + 1) ∈ (k + 1) :: hunkWalk (k + 1) rest
    simp
  | cons x pre ih =>
    intro k s rest hno
    have hno2 : ∀ s2 : String, HunkLine.add s2 ∉ pre :=
      fun s2 hmem => hno s2 (List.mem_cons_of_mem _ hmem)
    cases x with
    | add s2 => exact absurd (List.mem_cons_self _ _) (hno s2)
    | rem s2 =>
      show (k + ctxCount (HunkLine.rem s2 :: pre) + 1) ∈
        hunkWalk k (pre ++ HunkLine.add s :: rest)
      have : ctxCount (HunkLine.rem s2 :: pre) = ctxCount pre := rfl
      rw [this]
      exact ih k s rest hno2
    | ctx s2 =>
      show (k + ctxCount (HunkLine.ctx s2 :: pre) + 1) ∈
        hunkWalk (k + 1) (pre ++ HunkLine.add s :: rest)
      have h1 : ctxCount (HunkLine.ctx s2 :: pre) = 1 + ctxCount pre := rfl
      have h2 : k + (1 + ctxCount pre) + 1 = (k + 1) + ctxCount pre + 1 := by omega
      rw [h1, h2]
      exact ih (k + 1) s rest hno2

end FlutterAnalyze

namespace FlutterAnalyze

/-! ## C3 and C4: what the diff index records -/

/-- C3 as stated is false: in the diff
`+++ b/f` / `@@ -5,3 +5,4 @@` / ` ctx` / `+added`, the first added line
after the hunk header is recorded at new-revision line 6 (= c plus one
context line), not at `c = 5`. -/
theorem firstAdd_not_at_c_counterexample :
    fileHasChange (Diff.parse "+++ b/f\n@@ -5,3 +5,4 @@\n ctx\n+added") "f" 5 = false ∧
    fileHasChange (Diff.parse "+++ b/f\n@@ -5,3 +5,4 @@\n ctx\n+added") "f" 6 = true := by
  decide

/-- C3 (amended): for every well-formed unified diff and every hunk
`@@ -a,b +c,d @@`, the first added line after the header is recorded in
the DiffIndex with new-revision line number `c + k`, where `k` is the
number of context lines between the header and it; in particular, when
the added line immediately follows the header it is recorded at `c`. -/
theorem firstAdd_recorded_at_c_plus_ctx (fs : List FileDiff) (hwf : wfDiff fs)
    (fd : FileDiff) (hfd : fd ∈ fs) (h : Hunk) (hh : h ∈ fd.hunks)
    (pre rest : List HunkLine) (s : String)
    (hbody : h.body = pre ++ HunkLine.add s :: rest)
    (hpre : ∀ s2 : String, HunkLine.add s2 ∉ pre) :
    fileHasChange (Diff.parse (joinNl (renderDiff fs))) fd.name
      ((h.newStart : Int) + ctxCount pre) = true ∧
    (pre = [] →
      fileHasChange (Diff.parse (joinNl (renderDiff fs))) fd.name (h.newStart : Int) = true) := by
  have hne : fs ≠ [] := List.ne_nil_of_mem hfd
  have hiff := fileHasChange_parseLines_renderDiff fs (wfDiff_addLinesSafe fs hwf)
  rw [diffParse_renderDiff fs hne hwf]
  have hmem : ((h.newStart : Int) + ctxCount pre) ∈ hunkAddedLines h := by
    unfold hunkAddedLines
    rw [hbody]
    have hw := hunkWalk_first_add pre ((h.newStart : Int) - 1) s rest hpre
    have harith : (h.newStart : Int) - 1 + ctxCount pre + 1 =
        (h.newStart : Int) + ctxCount pre := by omega
    rwa [harith] at hw
  refine ⟨(hiff _ _).2 ⟨fd, hfd, rfl, h, hh, hmem⟩, ?_⟩
  intro hpre0
  subst hpre0
  exact (hiff _ _).2 ⟨fd, hfd, rfl, h, hh, by simpa [ctxCount] using hmem⟩

theorem firstAdd_recorded_witness :
    fileHasChange (Diff.parse (joinNl (renderDiff
      [⟨"f", [⟨5, 3, 5, 4, [HunkLine.ctx "x", HunkLine.add "y"]⟩]⟩])))
      "f" ((5 : Int) + ctxCount [HunkLine.ctx "x"]) = true := by
  have h := firstAdd_recorded_at_c_plus_ctx
    [⟨"f", [⟨5, 3, 5, 4, [HunkLine.ctx "x", HunkLine.add "y"]⟩]⟩]
    (by decide) ⟨"f", [⟨5, 3, 5, 4, [HunkLine.ctx "x", HunkLine.add "y"]⟩]⟩ (by simp)
    ⟨5, 3, 5, 4, [HunkLine.ctx "x", HunkLine.add "y"]⟩ (by simp)
    [HunkLine.ctx "x"] [] "y" rfl
    (by intro s2 hmem; simp at hmem)
  exact h.1

/-- C4: for every well-formed unified diff text, a line number is
recorded in the DiffIndex for file `F` if and only if some hunk for `F`
contains an added line mapping to that new-revision line number; in
particular, for every file not mentioned in the diff, `fileHasChange`
is false at every line. -/
theorem diffIndex_records_iff_hunk_added (fs : List FileDiff)
    (hwf : wfDiff fs) (hne : fs ≠ []) (f : String) (l : Int) :
    (fileHasChange (Diff.parse (joinNl (renderDiff fs))) f l = true ↔
      specTouched fs f l) ∧
    (f ∉ fs.map FileDiff.name →
      fileHasChange (Diff.parse (joinNl (renderDiff fs))) f l = false) := by
  have hiff : fileHasChange (Diff.parse (joinNl (renderDiff fs))) f l = true ↔
      specTouched fs f l := by
    rw [diffParse_renderDiff fs hne hwf]
    exact fileHasChange_parseLines_renderDiff fs (wfDiff_addLinesSafe fs hwf) f l
  refine ⟨hiff, ?_⟩
  intro hnotmem
  cases hb : fileHasChange (Diff.parse (joinNl (renderDiff fs))) f l with
  | false => rfl
  | true =>
    obtain ⟨fd, hfd, hname, _⟩ := hiff.1 hb
    exact absurd (List.mem_map.2 ⟨fd, hfd, hname⟩) hnotmem

theorem diffIndex_records_witness :
    (fileHasChange (Diff.parse (joinNl (renderDiff
        [⟨"f", [⟨5, 3, 5, 4, [HunkLine.ctx "x", HunkLine.add "y"]⟩]⟩])))
        "f" 6 = true ↔
      specTouched [⟨"f", [⟨5, 3, 5, 4, [HunkLine.ctx "x", HunkLine.add "y"]⟩]⟩] "f" 6) ∧
    ("other" ∉ ([⟨"f", [⟨5, 3, 5, 4, [HunkLine.ctx "x", HunkLine.add "y"]⟩]⟩].map
        FileDiff.name) →
      fileHasChange (Diff.parse (joinNl (renderDiff
        [⟨"f", [⟨5, 3, 5, 4, [HunkLine.ctx "x", HunkLine.add "y"]⟩]⟩])))
        "other" 6 = false) :=
  diffIndex_records_iff_hunk_added
    [⟨"f", [⟨5, 3, 5, 4, [HunkLine.ctx "x", HunkLine.add "y"]⟩]⟩]
    (by decide) (by simp) "other" 6 |>.imp
    (fun _ => by
      exact (diffIndex_records_iff_hunk_added
        [⟨"f", [⟨5, 3, 5, 4, [HunkLine.ctx "x", HunkLine.add "y"]⟩]⟩]
        (by decide) (by simp) "f" 6).1)
    (fun hx => hx)

end FlutterAnalyze

namespace FlutterAnalyze

/-! ## C5: a changed message forces a delete+add pair -/

theorem string_data_inj {s t : String} (h : s.data = t.data) : s = t := by
  cases s; cases t; exact congrArg String.mk h

theorem commentBody_data (issues : List Issue) :
    (commentBody issues).data =
      "<table><thead><tr><th>Level</th><th>Message</th></tr></thead><tbody>".data ++
      (((issues.map fun i => "<tr><td>".data ++ ((levelIcon i.level).data ++
        ("</td><td>".data ++ (i.message.data ++ "</td></tr>".data))))).flatten ++
      "</tbody></table><!-- Flutter Analyze Commenter: issue -->".data) := by
  unfold commentBody
  rw [String.data_append, String.data_append, join_data, List.map_map, List.append_assoc]
  have hrow : issues.map (String.data ∘ fun i => "<tr><td>" ++ levelIcon i.level ++
        "</td><td>" ++ i.message ++ "</td></tr>") =
      issues.map (fun i => "<tr><td>".data ++ ((levelIcon i.level).data ++
        ("</td><td>".data ++ (i.message.data ++ "</td></tr>".data)))) := by
    apply List.map_congr_left
    intro i _
    show ("<tr><td>" ++ levelIcon i.level ++ "</td><td>" ++ i.message ++
      "</td></tr>").data = _
    simp [String.data_append, List.append_assoc]
  rw [hrow]

theorem commentBody_changed_message (pre post : List Issue) (lv f : String)
    (m1 m2 : String) (ln col : Int) (hne : m1 ≠ m2) :
    commentBody (pre ++ ⟨lv, m1, f, ln, col⟩ :: post) ≠
      commentBody (pre ++ ⟨lv, m2, f, ln, col⟩ :: post) := by
  intro heq
  apply hne
  have hdata := congrArg String.data heq
  rw [commentBody_data, commentBody_data] at hdata
  have h1 := List.append_cancel_right (List.append_cancel_left hdata)
  rw [List.map_append, List.map_append, List.flatten_append, List.flatten_append,
    List.map_cons, List.map_cons, List.flatten_cons, List.flatten_cons] at h1
  have h2 := List.append_cancel_left h1
  have h3 := List.append_cancel_right h2
  have h4 := List.append_cancel_left (List.append_cancel_left
    (List.append_cancel_left h3))
  exact string_data_inj (List.append_cancel_right h4)

/-- C5: for a desired comment and a remote comment at the same file and
coordinate whose finding messages differ in one character, the rendered
bodies differ and the reconciler schedules the remote comment for
deletion and the desired one for addition — never a no-op and never an
in-place edit; conversely, a remote comment structurally identical to a
desired comment appears in neither list. -/
theorem changed_message_forces_delete_add
    (pre post : List Issue) (lv f m1 m2 : String) (ln col : Int) (rid : Nat)
    (_hlen : m1.data.length = m2.data.length) (hne : m1 ≠ m2) :
    ((Comment.ofIssues (pre ++ ⟨lv, m1, f, ln, col⟩ :: post)).path =
        (Comment.ofIssues (pre ++ ⟨lv, m2, f, ln, col⟩ :: post)).path ∧
      (Comment.ofIssues (pre ++ ⟨lv, m1, f, ln, col⟩ :: post)).line =
        (Comment.ofIssues (pre ++ ⟨lv, m2, f, ln, col⟩ :: post)).line) ∧
    (Comment.ofIssues (pre ++ ⟨lv, m1, f, ln, col⟩ :: post)).body ≠
      (Comment.ofIssues (pre ++ ⟨lv, m2, f, ln, col⟩ :: post)).body ∧
    (commentsToAdd [Comment.ofIssues (pre ++ ⟨lv, m1, f, ln, col⟩ :: post)]
        [⟨rid, (Comment.ofIssues (pre ++ ⟨lv, m2, f, ln, col⟩ :: post)).path,
          some (Comment.ofIssues (pre ++ ⟨lv, m2, f, ln, col⟩ :: post)).line,
          (Comment.ofIssues (pre ++ ⟨lv, m2, f, ln, col⟩ :: post)).body⟩] =
      [Comment.ofIssues (pre ++ ⟨lv, m1, f, ln, col⟩ :: post)]) ∧
    (commentsToDelete [Comment.ofIssues (pre ++ ⟨lv, m1, f, ln, col⟩ :: post)]
        [⟨rid, (Comment.ofIssues (pre ++ ⟨lv, m2, f, ln, col⟩ :: post)).path,
          some (Comment.ofIssues (pre ++ ⟨lv, m2, f, ln, col⟩ :: post)).line,
          (Comment.ofIssues (pre ++ ⟨lv, m2, f, ln, col⟩ :: post)).body⟩] =
      [⟨rid, (Comment.ofIssues (pre ++ ⟨lv, m2, f, ln, col⟩ :: post)).path,
        some (Comment.ofIssues (pre ++ ⟨lv, m2, f, ln, col⟩ :: post)).line,
        (Comment.ofIssues (pre ++ ⟨lv, m2, f, ln, col⟩ :: post)).body⟩]) ∧
    (∀ (locals : List Comment) (remotes : List RemoteComment)
        (dc : Comment) (rc : RemoteComment), dc ∈ locals → rc ∈ remotes →
        rc.matchesLocalComment dc = true →
        dc ∉ commentsToAdd locals remotes ∧ rc ∉ commentsToDelete locals remotes) := by
  have hbody : (Comment.ofIssues (pre ++ ⟨lv, m1, f, ln, col⟩ :: post)).body ≠
      (Comment.ofIssues (pre ++ ⟨lv, m2, f, ln, col⟩ :: post)).body :=
    commentBody_changed_message pre post lv f m1 m2 ln col hne
  have hbeq : ((Comment.ofIssues (pre ++ ⟨lv, m2, f, ln, col⟩ :: post)).body ==
      (Comment.ofIssues (pre ++ ⟨lv, m1, f, ln, col⟩ :: post)).body) = false :=
    beq_eq_false_iff_ne.2 (Ne.symm hbody)
  refine ⟨⟨?_, ?_⟩, hbody, ?_, ?_, ?_⟩
  · cases pre <;> rfl
  · cases pre <;> rfl
  · simp [commentsToAdd, RemoteComment.matchesLocalComment, hbeq]
  · simp [commentsToDelete, RemoteComment.matchesLocalComment, hbeq]
  · intro locals remotes dc rc hdc hrc hmatch
    constructor
    · intro hmem
      have := ((mem_commentsToAdd locals remotes dc).1 hmem).2 rc hrc
      rw [hmatch] at this
      exact absurd this (by decide)
    · intro hmem
      have := ((mem_commentsToDelete locals remotes rc).1 hmem).2 dc hdc
      rw [hmatch] at this
      exact absurd this (by decide)

end FlutterAnalyze

namespace FlutterAnalyze

/-! ## C2, C8, C9, C10: the pipeline -/

theorem containsL_append_self (sub : List Char) : ∀ x : List Char,
    containsL sub (x ++ sub) = true := by
  intro x
  induction x with
  | nil =>
    cases sub with
    | nil => rfl
    | cons c cs =>
      show containsL (c :: cs) (c :: cs) = true
      unfold containsL
      have : isPrefixOfL (c :: cs) (c :: cs) = true := by
        have := isPrefixOfL_append (c :: cs) []
        rwa [List.append_nil] at this
      rw [this]
      rfl
  | cons c x ih =>
    show containsL sub (c :: (x ++ sub)) = true
    cases sub with
    | nil => rfl
    | cons d ds =>
      unfold containsL
      rw [ih]
      simp

theorem maxIssuesBody_has_marker (n : Nat) :
    jsIncludes (maxIssuesBody n) maxIssuesCommentHeader = true := by
  unfold jsIncludes maxIssuesBody
  rw [show ("Flutter analyze commenter found " ++ toString n ++
      " issues, which exceeds the maximum of " ++ toString maxIssues ++ ".\n" ++
      maxIssuesCommentHeader).data =
    ("Flutter analyze commenter found " ++ toString n ++
      " issues, which exceeds the maximum of " ++ toString maxIssues ++ ".\n").data ++
      maxIssuesCommentHeader.data from by rw [String.data_append]]
  exact containsL_append_self _ _

/-- C2: whenever the number of parsed findings exceeds the ceiling, the
run issues exactly one ceiling-exceeded summary-comment creation and
never fetches the diff, never lists review comments, and never creates
or deletes a review comment; and on every run — before the count check —
the previous ceiling-exceeded comment (found by its marker substring in
the first page of issue comments) is deleted unconditionally, ahead of
every other request. -/
theorem ceiling_short_circuits (issues : List Issue) (ics : List IssueComment)
    (diffText : String) (rcs : List ApiReviewComment)
    (fa : Comment → Bool) (fd : RemoteComment → Bool) :
    (∃ rest, run issues ics diffText rcs fa fd =
      Event.listIssueComments ::
        ((match (ics.take perPage).find?
            (fun c => jsIncludes c.body maxIssuesCommentHeader) with
          | some c => [Event.deleteIssueComment c.id]
          | none => []) ++ rest)) ∧
    (issues.length > maxIssues →
      run issues ics diffText rcs fa fd =
        Event.listIssueComments ::
          ((match (ics.take perPage).find?
              (fun c => jsIncludes c.body maxIssuesCommentHeader) with
            | some c => [Event.deleteIssueComment c.id]
            | none => []) ++
            [Event.createIssueComment (maxIssuesBody issues.length)]) ∧
      (run issues ics diffText rcs fa fd).countP isCeilingCreate = 1 ∧
      Event.fetchDiff ∉ run issues ics diffText rcs fa fd ∧
      Event.listReviewComments ∉ run issues ics diffText rcs fa fd ∧
      (∀ p l b, Event.createReviewComment p l b ∉ run issues ics diffText rcs fa fd) ∧
      (∀ i, Event.deleteReviewComment i ∉ run issues ics diffText rcs fa fd)) := by
  constructor
  · unfold run
    exact ⟨_, rfl⟩
  · intro hover
    have hrun : run issues ics diffText rcs fa fd =
        Event.listIssueComments ::
          ((match (ics.take perPage).find?
              (fun c => jsIncludes c.body maxIssuesCommentHeader) with
            | some c => [Event.deleteIssueComment c.id]
            | none => []) ++
            [Event.createIssueComment (maxIssuesBody issues.length)]) := by
      unfold run
      rw [if_pos hover]
      simp [List.append_assoc]
    refine ⟨hrun, ?_, ?_, ?_, ?_, ?_⟩
    · rw [hrun]
      cases hfind : (ics.take perPage).find?
          (fun c => jsIncludes c.body maxIssuesCommentHeader) with
      | none =>
        simp [List.countP, List.countP.go, isCeilingCreate, maxIssuesBody_has_marker]
      | some c =>
        simp [List.countP, List.countP.go, isCeilingCreate, maxIssuesBody_has_marker]
    · rw [hrun]
      cases hfind : (ics.take perPage).find?
          (fun c => jsIncludes c.body maxIssuesCommentHeader) with
      | none => simp
      | some c => simp
    · rw [hrun]
      cases hfind : (ics.take perPage).find?
          (fun c => jsIncludes c.body maxIssuesCommentHeader) with
      | none => simp
      | some c => simp
    · rw [hrun]
      intro p l b
      cases hfind : (ics.take perPage).find?
          (fun c => jsIncludes c.body maxIssuesCommentHeader) with
      | none => simp
      | some c => simp
    · rw [hrun]
      intro i
      cases hfind : (ics.take perPage).find?
          (fun c => jsIncludes c.body maxIssuesCommentHeader) with
      | none => simp
      | some c => simp

/-- C8: each per-comment mutation is attempted regardless of the failure
of any other; a failure is caught, reported, and the loop continues, so
the requests issued are exactly one per planned comment, whatever the
failure oracle says, and the reported failures are exactly the failing
ones. -/
theorem mutation_loops_tolerate_failures :
    ∀ (toAdd : List Comment) (toDelete : List RemoteComment)
      (fa : Comment → Bool) (fd : RemoteComment → Bool),
      (runAddLoop fa toAdd).1 =
        toAdd.map (fun c => Event.createReviewComment c.path c.line c.body) ∧
      (runDeleteLoop fd toDelete).1 =
        toDelete.map (fun c => Event.deleteReviewComment c.id) ∧
      (runAddLoop fa toAdd).2 = toAdd.filter fa ∧
      (runDeleteLoop fd toDelete).2 = toDelete.filter fd ∧
      (∀ c ∈ toAdd,
        Event.createReviewComment c.path c.line c.body ∈ (runAddLoop fa toAdd).1) ∧
      (∀ c ∈ toDelete, Event.deleteReviewComment c.id ∈ (runDeleteLoop fd toDelete).1) := by
  intro toAdd toDelete fa fd
  have hadd : ∀ l : List Comment, (runAddLoop fa l).1 =
      l.map (fun c => Event.createReviewComment c.path c.line c.body) ∧
      (runAddLoop fa l).2 = l.filter fa := by
    intro l
    induction l with
    | nil => exact ⟨rfl, rfl⟩
    | cons c rest ih =>
      refine ⟨?_, ?_⟩
      · show Event.createReviewComment c.path c.line c.body :: (runAddLoop fa rest).1 = _
        rw [List.map_cons, ih.1]
      · show (if fa c = true then c :: (runAddLoop fa rest).2
            else (runAddLoop fa rest).2) = List.filter fa (c :: rest)
        by_cases hc : fa c <;> simp [hc, ih.2, List.filter_cons]
  have hdel : ∀ l : List RemoteComment, (runDeleteLoop fd l).1 =
      l.map (fun c => Event.deleteReviewComment c.id) ∧
      (runDeleteLoop fd l).2 = l.filter fd := by
    intro l
    induction l with
    | nil => exact ⟨rfl, rfl⟩
    | cons c rest ih =>
      refine ⟨?_, ?_⟩
      · show Event.deleteReviewComment c.id :: (runDeleteLoop fd rest).1 = _
        rw [List.map_cons, ih.1]
      · show (if fd c = true then c :: (runDeleteLoop fd rest).2
            else (runDeleteLoop fd rest).2) = List.filter fd (c :: rest)
        by_cases hc : fd c <;> simp [hc, ih.2, List.filter_cons]
  refine ⟨(hadd toAdd).1, (hdel toDelete).1, (hadd toAdd).2, (hdel toDelete).2, ?_, ?_⟩
  · intro c hc
    rw [(hadd toAdd).1]
    exact List.mem_map.2 ⟨c, hc, rfl⟩
  · intro c hc
    rw [(hdel toDelete).1]
    exact List.mem_map.2 ⟨c, hc, rfl⟩

/-- C9: every remote listing asks for a single page of `per_page = 100`
items and there is no pagination: the whole run depends only on the
first 100 issue comments and the first 100 review comments. -/
theorem single_page_of_100 :
    perPage = 100 ∧
    ∀ (issues : List Issue) (ics : List IssueComment) (diffText : String)
      (rcs : List ApiReviewComment) (fa : Comment → Bool) (fd : RemoteComment → Bool),
      run issues ics diffText rcs fa fd =
        run issues (ics.take perPage) diffText (rcs.take perPage) fa fd := by
  refine ⟨rfl, ?_⟩
  intro issues ics diffText rcs fa fd
  unfold run runAfterCeiling
  simp only [List.take_take, Nat.min_self]

/-- C10: the coordinate a remote review comment is matched by is its
`original_line` whenever that field is present and truthy (non-zero),
and its `line` field otherwise (`original_line` missing or 0). -/
theorem original_line_precedence :
    (∀ (c : ApiReviewComment) (n : Int), c.originalLine = some n → n ≠ 0 →
      (mkRemoteComment c).line = some n) ∧
    (∀ c : ApiReviewComment, c.originalLine = none ∨ c.originalLine = some 0 →
      (mkRemoteComment c).line = c.line) ∧
    (∀ c : ApiReviewComment, (mkRemoteComment c).id = c.id ∧
      (mkRemoteComment c).path = c.path ∧ (mkRemoteComment c).body = c.body) := by
  refine ⟨?_, ?_, ?_⟩
  · intro c n horig hne
    unfold mkRemoteComment jsOrCoord
    rw [horig]
    simp [hne]
  · intro c horig
    unfold mkRemoteComment jsOrCoord
    rcases horig with h | h
    · rw [h]
    · rw [h]
      simp
  · intro c
    exact ⟨rfl, rfl, rfl⟩

end FlutterAnalyze

namespace FlutterAnalyze

/-! ## C6: path normalization; C7: custom-lint degradation -/

theorem replaceFirstL_char_at (p r : Char) (b : List Char) : ∀ a : List Char, p ∉ a →
    replaceFirstL [p] [r] (a ++ p :: b) = a ++ r :: b := by
  intro a
  induction a with
  | nil =>
    intro _
    show replaceFirstL [p] [r] (p :: b) = r :: b
    unfold replaceFirstL
    rw [show isPrefixOfL [p] (p :: b) = true from by simp [isPrefixOfL]]
    simp
  | cons c a ih =>
    intro ha
    have hc : p ≠ c := fun hh => ha (hh ▸ List.mem_cons_self c a)
    show replaceFirstL [p] [r] (c :: (a ++ p :: b)) = c :: (a ++ r :: b)
    unfold replaceFirstL
    rw [show isPrefixOfL [p] (c :: (a ++ p :: b)) = false from by
      simp [isPrefixOfL, hc]]
    rw [if_neg (by simp)]
    rw [ih (fun hm => ha (List.mem_cons_of_mem c hm))]

theorem replaceFirstL_char_none (p r : Char) : ∀ s : List Char, p ∉ s →
    replaceFirstL [p] [r] s = s := by
  intro s
  induction s with
  | nil => intro _; rfl
  | cons c rest ih =>
    intro hs
    have hc : p ≠ c := fun hh => hs (hh ▸ List.mem_cons_self c rest)
    unfold replaceFirstL
    rw [show isPrefixOfL [p] (c :: rest) = false from by simp [isPrefixOfL, hc]]
    rw [if_neg (by simp)]
    rw [ih (fun hm => hs (List.mem_cons_of_mem c hm))]

theorem jsReplaceFirst_wd_strip (wd : String) (sep : Char) (x : String) :
    jsReplaceFirst (wd ++ ⟨[sep]⟩ ++ x) wd "" = ⟨sep :: x.data⟩ := by
  unfold jsReplaceFirst
  have hp : (wd ++ ⟨[sep]⟩ ++ x).data = wd.data ++ (sep :: x.data) := by
    simp [String.data_append]
  rw [hp]
  rw [show ("" : String).data = [] from rfl, replaceFirstL_exact]
  rfl

theorem stripLeadingSep_sep (sep : Char) (x : List Char)
    (hsep : sep = '/' ∨ sep = '\\') :
    stripLeadingSep (⟨sep :: x⟩ : String) = ⟨x⟩ := by
  unfold stripLeadingSep
  rcases hsep with h | h <;> simp [h]

/-- C6 (amended): for every parsed log line, the finding's file path is
the matched path with the first occurrence of the working directory
removed, one leading path separator removed, and the *first* backslash
(if any) rendered as a forward slash; later backslashes are kept.  The
first conjunct exercises the whole parser on a concrete log line; the
others characterize the normalization for arbitrary inputs. -/
theorem analyzer_path_normalization :
    (parseAnalyzerOutputs "[info] unused (WD/lib\\x.dart:1:2)" "WD" =
      [⟨"info", "unused", "lib/x.dart", 1, 2⟩]) ∧
    (∀ (wd a b : String) (sep : Char), sep = '/' ∨ sep = '\\' → '\\' ∉ a.data →
      normalizeFile wd (wd ++ ⟨[sep]⟩ ++ (a ++ "\\" ++ b)) = a ++ "/" ++ b) ∧
    (∀ (wd rest : String) (sep : Char), sep = '/' ∨ sep = '\\' → '\\' ∉ rest.data →
      normalizeFile wd (wd ++ ⟨[sep]⟩ ++ rest) = rest) := by
  refine ⟨by decide, ?_, ?_⟩
  · intro wd a b sep hsep ha
    unfold normalizeFile
    rw [jsReplaceFirst_wd_strip, stripLeadingSep_sep sep _ hsep]
    unfold jsReplaceFirst
    apply string_data_inj
    show replaceFirstL "\\".data "/".data (a ++ "\\" ++ b).data = (a ++ "/" ++ b).data
    have h1 : (a ++ "\\" ++ b).data = a.data ++ '\\' :: b.data := by
      simp [String.data_append]
    have h2 : (a ++ "/" ++ b).data = a.data ++ '/' :: b.data := by
      simp [String.data_append]
    rw [h1, h2, show ("\\" : String).data = ['\\'] from rfl,
      show ("/" : String).data = ['/'] from rfl]
    exact replaceFirstL_char_at '\\' '/' b.data a.data ha
  · intro wd rest sep hsep hrest
    unfold normalizeFile
    rw [jsReplaceFirst_wd_strip, stripLeadingSep_sep sep _ hsep]
    unfold jsReplaceFirst
    apply string_data_inj
    show replaceFirstL "\\".data "/".data rest.data = rest.data
    rw [show ("\\" : String).data = ['\\'] from rfl,
      show ("/" : String).data = ['/'] from rfl]
    exact replaceFirstL_char_none '\\' '/' rest.data hrest

/-- C6 as stated is false: with working directory `WD`, the log line
`[info] m (WD/lib\a\b.dart:1:2)` parses to a finding whose file is
`lib/a\b.dart` — only the first backslash became a forward slash, the
second survives, so separators are not always forward slashes. -/
theorem backslash_normalization_counterexample :
    parseAnalyzerOutputs "[info] m (WD/lib\\a\\b.dart:1:2)" "WD" =
      [⟨"info", "m", "lib/a\\b.dart", 1, 2⟩] ∧
    "lib/a\\b.dart" ≠ "lib/a/b.dart" := by
  exact ⟨by decide, by decide⟩

theorem matchBracesL_no_open : ∀ cs : List Char, '{' ∉ cs → matchBracesL cs = none := by
  intro cs
  induction cs with
  | nil => intro _; rfl
  | cons c rest ih =>
    intro h
    have hc : ¬ c = '{' := fun hh => h (hh ▸ List.mem_cons_self c rest)
    unfold matchBracesL
    rw [if_neg hc]
    exact ih (fun hm => h (List.mem_cons_of_mem c hm))

set_option maxRecDepth 4000 in
/-- C7 (amended): an undefined or empty log path yields an empty finding
list, and a log containing no JSON at all (no brace) yields an empty
list through the default payload; but a braced region that is not valid
JSON makes `JSON.parse` throw, and the error propagates out of the
parser (the caller catches it and aborts the run). -/
theorem customLint_degradation :
    (∀ wd content : String, CustomLintParser.parse none wd content = .ok []) ∧
    (∀ wd content : String, CustomLintParser.parse (some "") wd content = .ok []) ∧
    (∀ wd content p : String, p ≠ "" → '{' ∉ content.data →
      CustomLintParser.parse (some p) wd content = .ok []) ∧
    (∀ wd content p m : String, p ≠ "" → matchBraces content = some m →
      jsonParse m = none →
      CustomLintParser.parse (some p) wd content =
        .error "SyntaxError: Unexpected token in JSON") := by
  have hstep : ∀ wd content p : String, CustomLintParser.parse (some p) wd content =
      (if p = "" then Except.ok [] else
        let jsonString := match matchBraces content with
          | some m => m
          | none => defaultCustomLintJson
        match jsonParse jsonString with
        | none => Except.error "SyntaxError: Unexpected token in JSON"
        | some jsonData =>
          match getField jsonData "diagnostics" with
          | some (Json.arr diags) => diags.mapM (extractDiagnostic wd)
          | _ => Except.error "TypeError: diagnostics.map is not a function") :=
    fun _ _ _ => rfl
  refine ⟨fun wd content => rfl, fun wd content => rfl, ?_, ?_⟩
  · intro wd content p hp hbrace
    have hmb : matchBraces content = none := by
      unfold matchBraces
      rw [matchBracesL_no_open _ hbrace]
      rfl
    rw [hstep, if_neg hp, hmb]
    rfl
  · intro wd content p m hp hmb hjson
    rw [hstep, if_neg hp, hmb]
    show (match jsonParse m with
      | none => Except.error "SyntaxError: Unexpected token in JSON"
      | some jsonData =>
        match getField jsonData "diagnostics" with
        | some (Json.arr diags) => diags.mapM (extractDiagnostic wd)
        | _ => Except.error "TypeError: diagnostics.map is not a function") =
      Except.error "SyntaxError: Unexpected token in JSON"
    rw [hjson]

/-- C7 as stated is false: the payload `{oops}` contains a braced region
that is not valid JSON, and the parser raises an error instead of
returning the empty finding list. -/
theorem customLint_malformed_throws_counterexample :
    CustomLintParser.parse (some "custom_lint.log") "" "\x7boops\x7d" =
      .error "SyntaxError: Unexpected token in JSON" ∧
    CustomLintParser.parse (some "custom_lint.log") "" "\x7boops\x7d" ≠ .ok [] := by
  refine ⟨by rfl, ?_⟩
  intro h
  rw [show CustomLintParser.parse (some "custom_lint.log") "" "\x7boops\x7d" =
    .error "SyntaxError: Unexpected token in JSON" from by rfl] at h
  exact absurd h (by simp)

end FlutterAnalyze

namespace FlutterAnalyze

/-! ## Witnesses: the claim theorems applied at concrete inputs -/

theorem ceiling_short_circuits_witness :
    (List.replicate 11 (⟨"info", "m", "f", 1, 1⟩ : Issue)).length > maxIssues ∧
    run (List.replicate 11 ⟨"info", "m", "f", 1, 1⟩) [] "" []
        (fun _ => false) (fun _ => false) =
      [Event.listIssueComments, Event.createIssueComment (maxIssuesBody 11)] ∧
    Event.fetchDiff ∉ run (List.replicate 11 ⟨"info", "m", "f", 1, 1⟩) [] "" []
      (fun _ => false) (fun _ => false) := by
  have h := (ceiling_short_circuits (List.replicate 11 ⟨"info", "m", "f", 1, 1⟩) [] "" []
    (fun _ => false) (fun _ => false)).2 (by decide)
  exact ⟨by decide, h.1, h.2.2.1⟩

theorem changed_message_witness :
    (Comment.ofIssues [⟨"info", "ab", "lib/a.dart", 3, 1⟩]).body ≠
      (Comment.ofIssues [⟨"info", "ac", "lib/a.dart", 3, 1⟩]).body ∧
    commentsToAdd [Comment.ofIssues [⟨"info", "ab", "lib/a.dart", 3, 1⟩]]
        [⟨7, (Comment.ofIssues [⟨"info", "ac", "lib/a.dart", 3, 1⟩]).path,
          some (Comment.ofIssues [⟨"info", "ac", "lib/a.dart", 3, 1⟩]).line,
          (Comment.ofIssues [⟨"info", "ac", "lib/a.dart", 3, 1⟩]).body⟩] =
      [Comment.ofIssues [⟨"info", "ab", "lib/a.dart", 3, 1⟩]] ∧
    commentsToDelete [Comment.ofIssues [⟨"info", "ab", "lib/a.dart", 3, 1⟩]]
        [⟨7, (Comment.ofIssues [⟨"info", "ac", "lib/a.dart", 3, 1⟩]).path,
          some (Comment.ofIssues [⟨"info", "ac", "lib/a.dart", 3, 1⟩]).line,
          (Comment.ofIssues [⟨"info", "ac", "lib/a.dart", 3, 1⟩]).body⟩] =
      [⟨7, (Comment.ofIssues [⟨"info", "ac", "lib/a.dart", 3, 1⟩]).path,
        some (Comment.ofIssues [⟨"info", "ac", "lib/a.dart", 3, 1⟩]).line,
        (Comment.ofIssues [⟨"info", "ac", "lib/a.dart", 3, 1⟩]).body⟩] := by
  have h := changed_message_forces_delete_add [] [] "info" "lib/a.dart" "ab" "ac" 3 1 7
    (by decide) (by decide)
  exact ⟨h.2.1, h.2.2.1, h.2.2.2.1⟩

theorem analyzer_path_normalization_witness :
    normalizeFile "WD" ("WD" ++ ⟨['/']⟩ ++ ("lib/a" ++ "\\" ++ "b.dart")) =
      "lib/a" ++ "/" ++ "b.dart" :=
  analyzer_path_normalization.2.1 "WD" "lib/a" "b.dart" '/' (Or.inl rfl) (by decide)

theorem customLint_degradation_witness :
    ("custom_lint.log" ≠ "" ∧ '{' ∉ ("no json here" : String).data ∧
      CustomLintParser.parse (some "custom_lint.log") "wd" "no json here" = .ok []) ∧
    (matchBraces "\x7boops!\x7d" = some "\x7boops!\x7d" ∧ jsonParse "\x7boops!\x7d" = none ∧
      CustomLintParser.parse (some "custom_lint.log") "wd" "\x7boops!\x7d" =
        .error "SyntaxError: Unexpected token in JSON") := by
  refine ⟨⟨by decide, by decide,
    customLint_degradation.2.2.1 "wd" "no json here" "custom_lint.log"
      (by decide) (by decide)⟩,
    ⟨by rfl, by rfl,
    customLint_degradation.2.2.2 "wd" "\x7boops!\x7d" "custom_lint.log" "\x7boops!\x7d"
      (by decide) (by rfl) (by rfl)⟩⟩

theorem mutation_loops_witness :
    (runAddLoop (fun _ => true) [⟨"p", 1, "b"⟩]).1 =
      [Event.createReviewComment "p" 1 "b"] ∧
    (runDeleteLoop (fun _ => true) [⟨5, "p", some 1, "b"⟩]).1 =
      [Event.deleteReviewComment 5] := by
  have h := mutation_loops_tolerate_failures [⟨"p", 1, "b"⟩] [⟨5, "p", some 1, "b"⟩]
    (fun _ => true) (fun _ => true)
  exact ⟨h.1, h.2.1⟩

theorem original_line_precedence_witness :
    (mkRemoteComment ⟨1, "p", some 5, some 9, "b"⟩).line = some 5 ∧
    (mkRemoteComment ⟨2, "p", none, some 9, "b"⟩).line = some 9 ∧
    (mkRemoteComment ⟨3, "p", some 0, some 9, "b"⟩).line = some 9 := by
  refine ⟨original_line_precedence.1 ⟨1, "p", some 5, some 9, "b"⟩ 5 rfl (by decide),
    original_line_precedence.2.1 ⟨2, "p", none, some 9, "b"⟩ (Or.inl rfl),
    original_line_precedence.2.1 ⟨3, "p", some 0, some 9, "b"⟩ (Or.inr rfl)⟩

end FlutterAnalyze
